import Mathlib

/-!
IP location lookup service (`main.go`).

A shallow embedding of the range index, its lookup (`findLocationByIPID`), the
address encoder (`ipToID`), the row loop of `loadData` and the request handler
(`locationHandler`), together with the Go standard-library routines they call
(`sort.Search`, `net.ParseIP`, `IP.To4`, `strconv.ParseUint`, and the string values written
by `encoding/json`).

Conventions
* `uint32` / `uint64` / `int` / `byte` values are natural numbers; an operation that can
  wrap or truncate is written with an explicit `% 2 ^ w`.
* A Go string is the list of its bytes (`GoString`); `str "..."` is the Go string of a
  literal.  Byte constants are written `'c'.toNat`.
* A Go call that may stop with a run-time panic (slice index out of range)
  returns an `Outcome`.
* A Go function returning `(value, error)` returns a pair whose second component is
  `none` for a `nil` error.
* The package-level variable `ipDatabase` is passed as an argument.
-/

namespace ArenaTech

/-! ## Data model -/

/-- A Go string is the sequence of its bytes. -/
abbrev GoString := List Nat

/-- UTF-8 encoding of one code point. -/
def utf8 (c : Nat) : List Nat :=
  if c < 0x80 then [c]
  else if c < 0x800 then [0xC0 + c / 64, 0x80 + c % 64]
  else if c < 0x10000 then [0xE0 + c / 4096, 0x80 + c / 64 % 64, 0x80 + c % 64]
  else [0xF0 + c / 262144, 0x80 + c / 4096 % 64, 0x80 + c / 64 % 64, 0x80 + c % 64]

/-- The Go string written by a string literal. -/
def str (s : String) : GoString := s.toList.flatMap (fun c => utf8 c.toNat)

/-- The Go struct `IPRecord` (field names as in the source, `UpperIPIP` included). -/
structure IPRecord where
  LowerIPID : Nat
  UpperIPIP : Nat
  CountryCode : GoString
  CountryName : GoString
  Region : GoString
  City : GoString
deriving DecidableEq, Repr

/-- The Go struct `LocationResponse`. -/
structure LocationResponse where
  Country : GoString
  CountryCode : GoString
  City : GoString
deriving DecidableEq, Repr

/-- Result of running a piece of Go code: it either panics or returns a value. -/
inductive Outcome (α : Type) where
  | panics : Outcome α
  | returns : α → Outcome α
deriving DecidableEq, Repr

/-! ## `sort.Search` and the lookup -/

/-- The loop of Go's `sort.Search`: `for i < j { h := int(uint(i+j) >> 1); if !f(h) { i = h + 1 }
else { j = h } }; return i`.  For slice lengths `i + j` stays below `2 ^ 64`, so the midpoint is
`(i + j) / 2`.  A panic inside `f` propagates. -/
def sort.Search.loop (f : Nat → Outcome Bool) (i j : Nat) : Outcome Nat :=
  if i < j then
    match f ((i + j) / 2) with
    | .panics => .panics
    | .returns false => sort.Search.loop f ((i + j) / 2 + 1) j
    | .returns true => sort.Search.loop f i ((i + j) / 2)
  else .returns i
termination_by j - i
decreasing_by all_goals omega

/-- Go's `sort.Search(n, f)`: starts the loop with `i, j := 0, n`. -/
def sort.Search (n : Nat) (f : Nat → Outcome Bool) : Outcome Nat :=
  sort.Search.loop f 0 n

/-- The closure handed to `sort.Search` in `findLocationByIPID`:
`func(i int) bool { return ipDatabase[i].LowerIPID > id }`. -/
def lowerAbove (ipDatabase : List IPRecord) (id : Nat) (i : Nat) : Outcome Bool :=
  match ipDatabase[i]? with
  | none => .panics
  | some r => .returns (decide (r.LowerIPID > id))

/-- The position computed by the first statement of `findLocationByIPID`. -/
def searchIndex (ipDatabase : List IPRecord) (id : Nat) : Outcome Nat :=
  sort.Search ipDatabase.length (lowerAbove ipDatabase id)

/-- The Go function `findLocationByIPID`; `returns none` is the `nil` result. -/
def findLocationByIPID (ipDatabase : List IPRecord) (id : Nat) :
    Outcome (Option LocationResponse) :=
  match searchIndex ipDatabase id with
  | .panics => .panics
  | .returns index =>
    if index > 0 then
      match ipDatabase[index - 1]? with
      | none => .panics
      | some record =>
        if id ≥ record.LowerIPID ∧ id ≤ record.UpperIPIP then
          .returns (some
            { Country := record.CountryName
              CountryCode := record.CountryCode
              City := record.City })
        else .returns none
    else .returns none

/-! ## `net/netip` and `net`

`ipToID` calls `net.ParseIP` and `IP.To4` of the Go standard library.  `net.ParseIP` is
`netip.ParseAddr` followed by the rejection of zones and by `As16`; the definitions below follow
the library source function by function.  Two documented behaviours of the library matter for the
claims: IPv4 octets with a leading zero are rejected (since Go 1.17), and the IPv4-mapped IPv6
form `::ffff:192.0.2.1` is accepted by `ParseIP` and converted by `To4`.
-/

/-- The loop of Go's `netip.parseIPv4Fields` over `s = in[off:end]`, with the loop variables
`val`, `pos`, `digLen` and the slice `fields`; the first argument is the byte before the current
one (`none` when `i == 0`), and `rest = []` means `i == len(s)-1`:
```
for i := 0; i < len(s); i++ {
  if s[i] >= '0' && s[i] <= '9' {
    if digLen == 1 && val == 0 { return error }   // octet with leading zero
    val = val*10 + int(s[i]) - '0'
    digLen++
    if val > 255 { return error }
  } else if s[i] == '.' {
    if i == 0 || i == len(s)-1 || s[i-1] == '.' { return error }
    if pos == 3 { return error }                  // too long
    fields[pos] = uint8(val); pos++; val = 0; digLen = 0
  } else { return error }
}
if pos < 3 { return error }                       // too short
fields[3] = uint8(val)
```
The result is the content of `fields` on success and `none` on error. -/
def netip.parseIPv4Fields.loop : Option Nat → List Nat → Nat → Nat → Nat → List Nat →
    Option (List Nat)
  | _, [], val, pos, _, fields =>
    if pos < 3 then none else some (fields.set 3 (val % 256))
  | prev, c :: rest, val, pos, digLen, fields =>
    if '0'.toNat ≤ c ∧ c ≤ '9'.toNat then
      if digLen = 1 ∧ val = 0 then none
      else if val * 10 + c - '0'.toNat > 255 then none
      else netip.parseIPv4Fields.loop (some c) rest (val * 10 + c - '0'.toNat) pos (digLen + 1)
        fields
    else if c = '.'.toNat then
      if prev = none ∨ rest = [] ∨ prev = some '.'.toNat then none
      else if pos = 3 then none
      else netip.parseIPv4Fields.loop (some c) rest 0 (pos + 1) 0 (fields.set pos (val % 256))
    else none

/-- Go's `netip.parseIPv4Fields(in, off, end, fields)` on the substring `s = in[off:end]`. -/
def netip.parseIPv4Fields (s : GoString) (fields : List Nat) : Option (List Nat) :=
  netip.parseIPv4Fields.loop none s 0 0 0 fields

/-- Go's `netip.Addr`, by the constructor that made it: `AddrFrom4` of four bytes, or
`AddrFrom16` of sixteen bytes with a zone. -/
inductive netip.Addr where
  | from4 (fields : List Nat)
  | from16 (ip : List Nat) (zone : GoString)
deriving DecidableEq, Repr

/-- Go's `netip.parseIPv4`: `parseIPv4Fields(s, 0, len(s), fields[:])` on a zeroed `[4]uint8`,
then `AddrFrom4(fields)`. -/
def netip.parseIPv4 (s : GoString) : Option netip.Addr :=
  match netip.parseIPv4Fields s [0, 0, 0, 0] with
  | none => none
  | some fields => some (.from4 fields)

/-- The hex-number loop inside `parseIPv6`, from offset `off` with accumulator `acc` (a
`uint32`); it returns the final `off` and `acc`, or `none` on error:
```
for ; off < len(s); off++ {
  c := s[off]
  if c >= '0' && c <= '9' { acc = (acc << 4) + uint32(c-'0') }
  else if c >= 'a' && c <= 'f' { acc = (acc << 4) + uint32(c-'a'+10) }
  else if c >= 'A' && c <= 'F' { acc = (acc << 4) + uint32(c-'A'+10) }
  else { break }
  if off > 3 { return error }                 // more than 4 digits in group
  if acc > math.MaxUint16 { return error }
}
``` -/
def netip.parseIPv6.hex : List Nat → Nat → Nat → Option (Nat × Nat)
  | [], off, acc => some (off, acc)
  | c :: rest, off, acc =>
    if '0'.toNat ≤ c ∧ c ≤ '9'.toNat then
      if off > 3 then none
      else if (acc * 16 % 2 ^ 32 + (c - '0'.toNat)) % 2 ^ 32 > 65535 then none
      else netip.parseIPv6.hex rest (off + 1) ((acc * 16 % 2 ^ 32 + (c - '0'.toNat)) % 2 ^ 32)
    else if 'a'.toNat ≤ c ∧ c ≤ 'f'.toNat then
      if off > 3 then none
      else if (acc * 16 % 2 ^ 32 + (c - 'a'.toNat + 10)) % 2 ^ 32 > 65535 then none
      else netip.parseIPv6.hex rest (off + 1)
        ((acc * 16 % 2 ^ 32 + (c - 'a'.toNat + 10)) % 2 ^ 32)
    else if 'A'.toNat ≤ c ∧ c ≤ 'F'.toNat then
      if off > 3 then none
      else if (acc * 16 % 2 ^ 32 + (c - 'A'.toNat + 10)) % 2 ^ 32 > 65535 then none
      else netip.parseIPv6.hex rest (off + 1)
        ((acc * 16 % 2 ^ 32 + (c - 'A'.toNat + 10)) % 2 ^ 32)
    else some (off, acc)

/-- The variables `s`, `ip`, `ellipsis` and `i` of `parseIPv6` when its main loop is left. -/
structure netip.V6State where
  s : GoString
  ip : List Nat
  ellipsis : Int
  i : Nat
deriving DecidableEq, Repr

/-- The main loop `for i < 16 { ... }` of Go's `netip.parseIPv6`.  Each round reads a hex number;
if a dot follows, the rest is an embedded IPv4 address, which must replace the last two groups
(`ellipsis < 0 && i != 12` and `i+4 > 16` are errors) and is read by `parseIPv4Fields` into
`ip[i:i+4]`, after which `s = ""`, `i += 4` and the loop is left; otherwise the number is stored
in `ip[i]`, `ip[i+1]`, `i += 2`, the loop is left at the end of the string, else a colon with more
text must follow, and a second colon sets `ellipsis = i` (an error if one was seen) and leaves
the loop when the string ends there.  `none` is an error. -/
def netip.parseIPv6.loop (s : GoString) (ip : List Nat) (ellipsis : Int) (i : Nat) :
    Option netip.V6State :=
  if i < 16 then
    match netip.parseIPv6.hex s 0 0 with
    | none => none
    | some (off, acc) =>
      if off = 0 then none
      else if off < s.length ∧ s[off]? = some '.'.toNat then
        if ellipsis < 0 ∧ i ≠ 12 then none
        else if i + 4 > 16 then none
        else
          match netip.parseIPv4Fields s ((ip.drop i).take 4) with
          | none => none
          | some fields =>
            some { s := [], ip := ip.take i ++ fields ++ ip.drop (i + 4), ellipsis := ellipsis,
                   i := i + 4 }
      else
        let ip1 := (ip.set i (acc / 256 % 256)).set (i + 1) (acc % 256)
        let s1 := s.drop off
        if s1.length = 0 then some { s := s1, ip := ip1, ellipsis := ellipsis, i := i + 2 }
        else if s1[0]? ≠ some ':'.toNat then none
        else if s1.length = 1 then none
        else
          let s2 := s1.drop 1
          if s2[0]? = some ':'.toNat then
            if ellipsis ≥ 0 then none
            else
              let s3 := s2.drop 1
              if s3.length = 0 then
                some { s := s3, ip := ip1, ellipsis := ((i + 2 : Nat) : Int), i := i + 2 }
              else netip.parseIPv6.loop s3 ip1 ((i + 2 : Nat) : Int) (i + 2)
          else netip.parseIPv6.loop s2 ip1 ellipsis (i + 2)
  else some { s := s, ip := ip, ellipsis := ellipsis, i := i }
termination_by 16 - i
decreasing_by all_goals omega

/-- The copy loop of the ellipsis expansion, `for j := i - 1; j >= ellipsis; j-- { ip[j+n] =
ip[j] }`, with `k` rounds to go (so `j = ellipsis + k - 1`). -/
def netip.parseIPv6.shift (ellipsis n : Nat) : Nat → List Nat → List Nat
  | 0, ip => ip
  | k + 1, ip =>
    netip.parseIPv6.shift ellipsis n k (ip.set (ellipsis + k + n) (ip.getD (ellipsis + k) 0))

/-- The part of `parseIPv6` after its main loop: the whole string must be used, a short address
needs an ellipsis, which is expanded (`ip[j+n] = ip[j]` for `j` from `i-1` down to `ellipsis`,
then `clear(ip[ellipsis : ellipsis+n])`), and a full address must not have one. -/
def netip.parseIPv6.finish (st : netip.V6State) (zone : GoString) : Option netip.Addr :=
  if st.s.length ≠ 0 then none
  else if st.i < 16 then
    if st.ellipsis < 0 then none
    else
      some (.from16
        ((netip.parseIPv6.shift st.ellipsis.toNat (16 - st.i) (st.i - st.ellipsis.toNat)
            st.ip).take st.ellipsis.toNat ++
          List.replicate (16 - st.i) 0 ++
          (netip.parseIPv6.shift st.ellipsis.toNat (16 - st.i) (st.i - st.ellipsis.toNat)
            st.ip).drop (st.ellipsis.toNat + (16 - st.i)))
        zone)
  else if st.ellipsis ≥ 0 then none
  else some (.from16 st.ip zone)

/-- The part of `parseIPv6` after the zone has been split off: a leading `::` sets
`ellipsis = 0` (and alone is the unspecified address), then the main loop runs from `i = 0`. -/
def netip.parseIPv6.address (s : GoString) (zone : GoString) : Option netip.Addr :=
  if s.length ≥ 2 ∧ s[0]? = some ':'.toNat ∧ s[1]? = some ':'.toNat then
    if (s.drop 2).length = 0 then some (.from16 (List.replicate 16 0) zone)
    else
      match netip.parseIPv6.loop (s.drop 2) (List.replicate 16 0) 0 0 with
      | none => none
      | some st => netip.parseIPv6.finish st zone
  else
    match netip.parseIPv6.loop s (List.replicate 16 0) (-1) 0 with
    | none => none
    | some st => netip.parseIPv6.finish st zone

/-- Go's `netip.parseIPv6`: splits the zone off at the first `%` (an empty zone is an error) and
parses the address part. -/
def netip.parseIPv6 (input : GoString) : Option netip.Addr :=
  if input.indexOf '%'.toNat < input.length then
    if input.drop (input.indexOf '%'.toNat + 1) = [] then none
    else netip.parseIPv6.address (input.take (input.indexOf '%'.toNat))
      (input.drop (input.indexOf '%'.toNat + 1))
  else netip.parseIPv6.address input []

/-- The loop of Go's `netip.ParseAddr` over the bytes of `s`: the first `.` sends `s` to
`parseIPv4`, the first `:` to `parseIPv6`, a `%` first is an error, and so is the end of the
string. -/
def netip.ParseAddr.scan (s : GoString) : List Nat → Option netip.Addr
  | [] => none
  | c :: rest =>
    if c = '.'.toNat then netip.parseIPv4 s
    else if c = ':'.toNat then netip.parseIPv6 s
    else if c = '%'.toNat then none
    else netip.ParseAddr.scan s rest

/-- Go's `netip.ParseAddr`. -/
def netip.ParseAddr (s : GoString) : Option netip.Addr :=
  netip.ParseAddr.scan s s

/-- Go's `Addr.Zone`: the zone of an IPv6 address, empty for IPv4. -/
def netip.Addr.Zone : netip.Addr → GoString
  | .from4 _ => []
  | .from16 _ zone => zone

/-- Go's `Addr.As16`: the 16-byte form; an IPv4 address is returned in IPv4-mapped form. -/
def netip.Addr.As16 : netip.Addr → List Nat
  | .from4 fields => [0, 0, 0, 0, 0, 0, 0, 0, 0, 0, 0xff, 0xff] ++ fields
  | .from16 ip _ => ip

/-- Go's `net.ParseIP` (`nil` is `none`): `ip, err := netip.ParseAddr(s); if err != nil ||
ip.Zone() != "" { return nil }; return ip.As16()`.  The result always has 16 bytes. -/
def net.ParseIP (s : GoString) : Option (List Nat) :=
  match netip.ParseAddr s with
  | none => none
  | some addr => if addr.Zone ≠ [] then none else some addr.As16

/-- Go's `IP.To4` (`nil` is `none`): `if len(ip) == 4 { return ip }; if len(ip) == 16 &&
isZeros(ip[0:10]) && ip[10] == 0xff && ip[11] == 0xff { return ip[12:16] }; return nil`. -/
def net.IP.To4 (ip : List Nat) : Option (List Nat) :=
  if ip.length = 4 then some ip
  else if ip.length = 16 ∧ (ip.take 10).all (fun b => b = 0) ∧ ip[10]? = some 0xff ∧
      ip[11]? = some 0xff then
    some ((ip.take 16).drop 12)
  else none

/-- The Go function `ipToID`.  The slice returned by `To4` has four bytes, so the four index
expressions `ip[0]` .. `ip[3]` are in range; the key is
`(uint32(ip[0]) << 24) | (uint32(ip[1]) << 16) | (uint32(ip[2]) << 8) | uint32(ip[3])`. -/
def ipToID (ipStr : GoString) : Nat × Option String :=
  match net.ParseIP ipStr with
  | none => (0, some "invalid IP address format")
  | some ip =>
    match net.IP.To4 ip with
    | none => (0, some "not an IPv4 address")
    | some ip4 =>
      ((((ip4.getD 0 0) <<< 24) % 2 ^ 32) ||| (((ip4.getD 1 0) <<< 16) % 2 ^ 32) |||
        (((ip4.getD 2 0) <<< 8) % 2 ^ 32) ||| (ip4.getD 3 0), none)


/-! ## `strconv.ParseUint`

`loadData` calls `strconv.ParseUint(row[k], 10, 32)` and drops the error.  The library documents
both error values: a syntax error returns 0, and a value out of range returns "the maximum
magnitude unsigned integer of the appropriate bitSize".
-/

/-- The error kinds of `strconv.NumError` that `ParseUint` can report for a valid base and bit
size. -/
inductive strconv.NumError where
  | ErrSyntax
  | ErrRange
deriving DecidableEq, Repr

/-- Go's `lower(c) = c | ('x' - 'X')`. -/
def strconv.lower (c : Nat) : Nat := c ||| ('x'.toNat - 'X'.toNat)

/-- The digit loop of Go's `strconv.ParseUint` for a base between 2 and 36 (for these the
underscore case `c == '_' && base0` never applies), with the accumulator `n` (a `uint64`):
```
for _, c := range []byte(s) {
  var d byte
  switch {
  case '0' <= c && c <= '9':               d = c - '0'
  case 'a' <= lower(c) && lower(c) <= 'z': d = lower(c) - 'a' + 10
  default:                                 return 0, syntaxError
  }
  if d >= byte(base) { return 0, syntaxError }
  if n >= cutoff { return maxVal, rangeError }      // n*base overflows
  n *= uint64(base)
  n1 := n + uint64(d)
  if n1 < n || n1 > maxVal { return maxVal, rangeError }
  n = n1
}
return n, nil
``` -/
def strconv.ParseUint.loop (base cutoff maxVal : Nat) : List Nat → Nat →
    Nat × Option strconv.NumError
  | [], n => (n, none)
  | c :: rest, n =>
    if '0'.toNat ≤ c ∧ c ≤ '9'.toNat then
      if c - '0'.toNat ≥ base % 256 then (0, some .ErrSyntax)
      else if n ≥ cutoff then (maxVal, some .ErrRange)
      else if (n * base % 2 ^ 64 + (c - '0'.toNat)) % 2 ^ 64 < n * base % 2 ^ 64 ∨
          (n * base % 2 ^ 64 + (c - '0'.toNat)) % 2 ^ 64 > maxVal then
        (maxVal, some .ErrRange)
      else strconv.ParseUint.loop base cutoff maxVal rest
        ((n * base % 2 ^ 64 + (c - '0'.toNat)) % 2 ^ 64)
    else if 'a'.toNat ≤ strconv.lower c ∧ strconv.lower c ≤ 'z'.toNat then
      if (strconv.lower c - 'a'.toNat + 10) % 256 ≥ base % 256 then (0, some .ErrSyntax)
      else if n ≥ cutoff then (maxVal, some .ErrRange)
      else if (n * base % 2 ^ 64 + (strconv.lower c - 'a'.toNat + 10) % 256) % 2 ^ 64
            < n * base % 2 ^ 64 ∨
          (n * base % 2 ^ 64 + (strconv.lower c - 'a'.toNat + 10) % 256) % 2 ^ 64 > maxVal then
        (maxVal, some .ErrRange)
      else strconv.ParseUint.loop base cutoff maxVal rest
        ((n * base % 2 ^ 64 + (strconv.lower c - 'a'.toNat + 10) % 256) % 2 ^ 64)
    else (0, some .ErrSyntax)

/-- Go's `strconv.ParseUint(s, base, bitSize)` for `2 ≤ base ≤ 36` and `1 ≤ bitSize ≤ 64` (the
only call has base 10 and bit size 32): the empty string is a syntax error,
`cutoff = maxUint64/base + 1` and `maxVal = 1<<bitSize - 1` in `uint64`. -/
def strconv.ParseUint (s : GoString) (base bitSize : Nat) : Nat × Option strconv.NumError :=
  if s = [] then (0, some .ErrSyntax)
  else
    strconv.ParseUint.loop base ((2 ^ 64 - 1) / base + 1) ((2 ^ bitSize % 2 ^ 64 + 2 ^ 64 - 1) % 2 ^ 64) s 0

/-! ## `loadData`

The function is modelled from the point where `reader.ReadAll()` has returned the rows.
-/

/-- The body of the row loop of `loadData`: the record built from `row`.  The six index
expressions `row[0]` .. `row[5]` panic when the row is shorter; the parse errors are dropped and
the values converted with `uint32(...)`. -/
def loadData.record (row : List GoString) : Outcome IPRecord :=
  match row[0]?, row[1]?, row[2]?, row[3]?, row[4]?, row[5]? with
  | some f0, some f1, some f2, some f3, some f4, some f5 =>
    .returns
      { LowerIPID := (strconv.ParseUint f0 10 32).1 % 2 ^ 32
        UpperIPIP := (strconv.ParseUint f1 10 32).1 % 2 ^ 32
        CountryCode := f2
        CountryName := f3
        Region := f4
        City := f5 }
  | _, _, _, _, _, _ => .panics

/-- The loop `for i, row := range records { ipDatabase[i] = IPRecord{...} }`, from row `i` on. -/
def loadData.loop : List (List GoString) → Nat → List IPRecord → Outcome (List IPRecord)
  | [], _, ipDatabase => .returns ipDatabase
  | row :: rest, i, ipDatabase =>
    match loadData.record row with
    | .panics => .panics
    | .returns r =>
      if i < ipDatabase.length then loadData.loop rest (i + 1) (ipDatabase.set i r)
      else .panics

/-- The Go function `loadData` after the file has been read: `ipDatabase = make([]IPRecord,
len(records))` followed by the row loop; it returns the final `ipDatabase`. -/
def loadData (records : List (List GoString)) : Outcome (List IPRecord) :=
  loadData.loop records 0
    (List.replicate records.length
      { LowerIPID := 0, UpperIPIP := 0, CountryCode := [], CountryName := [], Region := [],
        City := [] })


/-! ## `unicode/utf8` and `encoding/json`

`locationHandler` writes its JSON bodies with `json.NewEncoder(w).Encode(v)`.  The library
documents that string values are "coerced to valid UTF-8, replacing invalid bytes with the Unicode
replacement rune"; the test for an invalid byte is `utf8.DecodeRuneInString`.
-/

/-- The table `first` of Go's `unicode/utf8`, by ranges of the first byte: `as = 0xF0` for ASCII,
`xx = 0xF1` for invalid first bytes (`0x80`-`0xC1`, `0xF5`-`0xFF`), and for the others the size
in the low bits and the index of the accept range in the high bits (`s1 = 0x02`, `s2 = 0x13`,
`s3 = 0x03`, `s4 = 0x23`, `s5 = 0x34`, `s6 = 0x04`, `s7 = 0x44`). -/
def utf8.first (b : Nat) : Nat :=
  if b < 0x80 then 0xF0
  else if b < 0xC2 then 0xF1
  else if b < 0xE0 then 0x02
  else if b = 0xE0 then 0x13
  else if b < 0xED then 0x03
  else if b = 0xED then 0x23
  else if b < 0xF0 then 0x03
  else if b = 0xF0 then 0x34
  else if b < 0xF4 then 0x04
  else if b = 0xF4 then 0x44
  else 0xF1

/-- The table `acceptRanges` of Go's `unicode/utf8`: the bounds `lo`, `hi` allowed for the
second byte. -/
def utf8.acceptRanges (k : Nat) : Nat × Nat :=
  if k = 0 then (0x80, 0xBF)
  else if k = 1 then (0xA0, 0xBF)
  else if k = 2 then (0x80, 0x9F)
  else if k = 3 then (0x90, 0xBF)
  else if k = 4 then (0x80, 0x8F)
  else (0, 0)

/-- Go's `utf8.DecodeRuneInString(s)`, returning the rune and its size in bytes:
```
n := len(s)
if n < 1 { return RuneError, 0 }
s0 := s[0]
x := first[s0]
if x >= as {
  mask := rune(x) << 31 >> 31            // 0 for as, all ones for xx
  return rune(s[0])&^mask | RuneError&mask, 1
}
sz := int(x & 7)
accept := acceptRanges[x>>4]
if n < sz { return RuneError, 1 }
s1 := s[1]
if s1 < accept.lo || accept.hi < s1 { return RuneError, 1 }
if sz <= 2 { return rune(s0&mask2)<<6 | rune(s1&maskx), 2 }
s2 := s[2]
if s2 < locb || hicb < s2 { return RuneError, 1 }
if sz <= 3 { return rune(s0&mask3)<<12 | rune(s1&maskx)<<6 | rune(s2&maskx), 3 }
s3 := s[3]
if s3 < locb || hicb < s3 { return RuneError, 1 }
return rune(s0&mask4)<<18 | rune(s1&maskx)<<12 | rune(s2&maskx)<<6 | rune(s3&maskx), 4
```
with `RuneError = 0xFFFD`, `locb = 0x80`, `hicb = 0xBF`, `maskx = 0x3F`, `mask2 = 0x1F`,
`mask3 = 0x0F`, `mask4 = 0x07`.  The index expressions `s[1]`, `s[2]`, `s[3]` are in range after
the test `n < sz`. -/
def utf8.DecodeRuneInString (s : GoString) : Nat × Nat :=
  if s.length < 1 then (0xFFFD, 0)
  else if utf8.first (s.getD 0 0) ≥ 0xF0 then
    (if utf8.first (s.getD 0 0) % 2 = 1 then 0xFFFD else s.getD 0 0, 1)
  else if s.length < utf8.first (s.getD 0 0) &&& 7 then (0xFFFD, 1)
  else if s.getD 1 0 < (utf8.acceptRanges (utf8.first (s.getD 0 0) >>> 4)).1 ∨
      (utf8.acceptRanges (utf8.first (s.getD 0 0) >>> 4)).2 < s.getD 1 0 then (0xFFFD, 1)
  else if utf8.first (s.getD 0 0) &&& 7 ≤ 2 then
    (((s.getD 0 0 &&& 0x1F) <<< 6) ||| (s.getD 1 0 &&& 0x3F), 2)
  else if s.getD 2 0 < 0x80 ∨ 0xBF < s.getD 2 0 then (0xFFFD, 1)
  else if utf8.first (s.getD 0 0) &&& 7 ≤ 3 then
    (((s.getD 0 0 &&& 0x0F) <<< 12) ||| ((s.getD 1 0 &&& 0x3F) <<< 6) |||
      (s.getD 2 0 &&& 0x3F), 3)
  else if s.getD 3 0 < 0x80 ∨ 0xBF < s.getD 3 0 then (0xFFFD, 1)
  else
    (((s.getD 0 0 &&& 0x07) <<< 18) ||| ((s.getD 1 0 &&& 0x3F) <<< 12) |||
      ((s.getD 2 0 &&& 0x3F) <<< 6) ||| (s.getD 3 0 &&& 0x3F), 4)

/-- The string that the JSON string literal written by `appendString` of Go's `encoding/json`
stands for, scanning `src` from the current byte with `skip` bytes of an accepted multi-byte
sequence still to copy.  In `appendString` a byte below `utf8.RuneSelf = 0x80` is written as
itself or as an escape of itself; at any other byte `c, size := utf8.DecodeRuneInString(src[i :
i+n])` is taken on the next `n ≤ utf8.UTFMax = 4` bytes, and `if c == utf8.RuneError && size ==
1` the six characters `\ufffd` are written (the escape of U+FFFD, in UTF-8 `EF BF BD`) and
`i += 1`; otherwise the `size` bytes are written as they are (U+2028 and U+2029 as escapes of
themselves) and `i += size`. -/
def json.stringValue.go : Nat → GoString → GoString
  | _, [] => []
  | skip + 1, b :: rest => b :: json.stringValue.go skip rest
  | 0, b :: rest =>
    if b < 0x80 then b :: json.stringValue.go 0 rest
    else if (utf8.DecodeRuneInString ((b :: rest).take 4)).1 = 0xFFFD ∧
        (utf8.DecodeRuneInString ((b :: rest).take 4)).2 = 1 then
      0xEF :: 0xBF :: 0xBD :: json.stringValue.go 0 rest
    else b :: json.stringValue.go ((utf8.DecodeRuneInString ((b :: rest).take 4)).2 - 1) rest

/-- The string value that `encoding/json` writes for the Go string `src`: `src` with every byte
that does not belong to a valid UTF-8 sequence replaced by U+FFFD. -/
def json.stringValue (src : GoString) : GoString :=
  json.stringValue.go 0 src

/-! ## `locationHandler` -/

/-- What the handler writes as the response body: `text msg` is `http.Error(w, msg, code)` (the
message as plain text), `json members` is `json.NewEncoder(w).Encode(v)` for a value `v` that
encodes as a JSON object: the names of its members and the string values they stand for, in
order. -/
inductive Body where
  | text (msg : String)
  | json (members : List (String × GoString))
deriving DecidableEq, Repr

/-- The JSON object that `Encode` writes for a `LocationResponse`: its members are named by the
struct tags and hold the string values written for the three fields. -/
def LocationResponse.json (l : LocationResponse) : Body :=
  .json [("country", json.stringValue l.Country),
    ("countryCode", json.stringValue l.CountryCode), ("city", json.stringValue l.City)]

/-- The response built from a matched record (lines 87-91 of `main.go`). -/
def IPRecord.location (r : IPRecord) : LocationResponse :=
  { Country := r.CountryName, CountryCode := r.CountryCode, City := r.City }

/-- The key lies in the inclusive range of the record. -/
def IPRecord.Contains (r : IPRecord) (key : Nat) : Prop :=
  r.LowerIPID ≤ key ∧ key ≤ r.UpperIPIP

instance (r : IPRecord) (key : Nat) : Decidable (r.Contains key) := by
  unfold IPRecord.Contains; infer_instance

/-- The index is sorted ascending by lower bound. -/
def SortedByLower (db : List IPRecord) : Prop :=
  db.Pairwise (fun a b => a.LowerIPID ≤ b.LowerIPID)

instance (db : List IPRecord) : Decidable (SortedByLower db) := by
  unfold SortedByLower; infer_instance

/-- Every record has `lower ≤ upper`. -/
def WellFormed (db : List IPRecord) : Prop :=
  ∀ r ∈ db, r.LowerIPID ≤ r.UpperIPIP

instance (db : List IPRecord) : Decidable (WellFormed db) := by
  unfold WellFormed; infer_instance

/-- Records at different positions have disjoint ranges. -/
def NonOverlapping (db : List IPRecord) : Prop :=
  db.Pairwise (fun a b => a.UpperIPIP < b.LowerIPID ∨ b.UpperIPIP < a.LowerIPID)

instance (db : List IPRecord) : Decidable (NonOverlapping db) := by
  unfold NonOverlapping; infer_instance

/-- The value of a string of decimal digits. -/
def decVal (p : GoString) : Nat :=
  p.foldl (fun n c => n * 10 + (c - '0'.toNat)) 0

/-- A decimal numeral: a non-empty string of ASCII digits. -/
def IsNumeral (p : GoString) : Prop :=
  p ≠ [] ∧ ∀ c ∈ p, '0'.toNat ≤ c ∧ c ≤ '9'.toNat

instance (p : GoString) : Decidable (IsNumeral p) := by
  unfold IsNumeral; infer_instance

/-- An octet numeral: a decimal numeral without a leading zero (the numeral `0` itself is
allowed) whose value is at most 255. -/
def IsOctet (p : GoString) : Prop :=
  IsNumeral p ∧ (p.length > 1 → p.head? ≠ some '0'.toNat) ∧ decVal p ≤ 255

instance (p : GoString) : Decidable (IsOctet p) := by
  unfold IsOctet; infer_instance

/-- A possibly empty string of digits without a leading zero and with value at most 255: the
digits of an octet read so far. -/
def OctetPrefix (w : GoString) : Prop :=
  (∀ c ∈ w, 48 ≤ c ∧ c ≤ 57) ∧ (w.length > 1 → w.head? ≠ some 48) ∧ decVal w ≤ 255

/-- The dotted string `p0.p1.p2.p3`. -/
def dotted (p0 p1 p2 p3 : GoString) : GoString :=
  p0 ++ '.'.toNat :: (p1 ++ '.'.toNat :: (p2 ++ '.'.toNat :: p3))

/-- A well-formed dotted-decimal IPv4 address: exactly four octet numerals separated by dots. -/
def IsDottedQuad (s : GoString) : Prop :=
  ∃ p0 p1 p2 p3, IsOctet p0 ∧ IsOctet p1 ∧ IsOctet p2 ∧ IsOctet p3 ∧ s = dotted p0 p1 p2 p3

/-- A bound field that `ParseUint` rejects for its syntax: the empty string, or a string whose
first non-digit byte comes after digits of value below `2^32` (non-numeric text, a sign). -/
def NotNumeric (f : GoString) : Prop :=
  f = [] ∨ ∃ ds c rest, f = ds ++ c :: rest ∧ (∀ d ∈ ds, '0'.toNat ≤ d ∧ d ≤ '9'.toNat) ∧
    decVal ds < 2 ^ 32 ∧ ¬ ('0'.toNat ≤ c ∧ c ≤ '9'.toNat)

/-- A bound field that `ParseUint` rejects for its range: it starts with digits whose value is
at least `2^32` (in particular every decimal numeral of value at least `2^32`). -/
def OutOfRange (f : GoString) : Prop :=
  ∃ ds rest, f = ds ++ rest ∧ (∀ d ∈ ds, '0'.toNat ≤ d ∧ d ≤ '9'.toNat) ∧ decVal ds ≥ 2 ^ 32

/-- Two dataset rows that are not in ascending order of their lower bounds. -/
def unsortedRows : List (List GoString) :=
  [ [str "134744072", str "134744072", str "US", str "United States", str "New York",
      str "New York"],
    [str "16777216", str "16777471", str "US", str "United States", str "California",
      str "Mountain View"] ]

/-- A dataset row whose bounds are the decimal numeral `4294967296 = 2^32`. -/
def outOfRangeRows : List (List GoString) :=
  [ [str "4294967296", str "4294967296", str "US", str "United States", str "California",
      str "Mountain View"] ]

/-- Dataset rows with bounds that are non-numeric, empty, negative and out of range. -/
def dirtyRows : List (List GoString) :=
  [ [str "abc", str "", str "US", str "United States", str "California", str "Mountain View"],
    [str "-5", str "99999999999x", str "DE", str "Germany", str "Berlin", str "Berlin"] ]

/-- The three-record index of `setupMockDatabase` in `main_test.go`. -/
def mockDatabase : List IPRecord :=
  [ { LowerIPID := 16777216, UpperIPIP := 16777471, CountryCode := str "US",
      CountryName := str "United States", Region := str "", City := str "Mountain View" },
    { LowerIPID := 134744072, UpperIPIP := 134744072, CountryCode := str "US",
      CountryName := str "United States", Region := str "", City := str "New York" },
    { LowerIPID := 3232235520, UpperIPIP := 3232236031, CountryCode := str "DE",
      CountryName := str "Germany", Region := str "", City := str "Berlin" } ]

/-- A sorted, well-formed index whose two ranges overlap. -/
def overlapDatabase : List IPRecord :=
  [ { LowerIPID := 1, UpperIPIP := 10, CountryCode := str "AA", CountryName := str "Aland",
      Region := str "", City := str "Acity" },
    { LowerIPID := 5, UpperIPIP := 6, CountryCode := str "BB", CountryName := str "Bland",
      Region := str "", City := str "Bcity" } ]

/-- A sorted index whose only record has its upper bound below its lower bound. -/
def invertedDatabase : List IPRecord :=
  [ { LowerIPID := 5, UpperIPIP := 3, CountryCode := str "AA", CountryName := str "Aland",
      Region := str "", City := str "Acity" } ]

/-- A sorted index whose middle record is inverted (`upper < lower`) and lies inside the
first range. -/
def invertedMiddleDatabase : List IPRecord :=
  [ { LowerIPID := 0, UpperIPIP := 100, CountryCode := str "AA", CountryName := str "Aland",
      Region := str "", City := str "Acity" },
    { LowerIPID := 50, UpperIPIP := 10, CountryCode := str "BB", CountryName := str "Bland",
      Region := str "", City := str "Bcity" },
    { LowerIPID := 60, UpperIPIP := 70, CountryCode := str "CC", CountryName := str "Cland",
      Region := str "", City := str "Ccity" } ]

/-- A sorted index whose last record is inverted (`upper < lower`) and lies inside the
first range. -/
def invertedLastDatabase : List IPRecord :=
  [ { LowerIPID := 0, UpperIPIP := 100, CountryCode := str "AA", CountryName := str "Aland",
      Region := str "", City := str "Acity" },
    { LowerIPID := 50, UpperIPIP := 10, CountryCode := str "BB", CountryName := str "Bland",
      Region := str "", City := str "Bcity" } ]

/-! ## The reference lookup of the specification -/

/-- Step 1 of the lookup algorithm as the specification words it: the smallest index `i` such
that `records[i].lower > key`, and the number of records when there is none. -/
def specPos (records : List IPRecord) (key : Nat) : Nat :=
  records.findIdx (fun r => decide (r.LowerIPID > key))

/-- The lookup algorithm as the specification words it: with `pos` of step 1, not found when
`pos = 0`; otherwise the location fields of `records[pos-1]` when `key ≤ records[pos-1].upper`,
and not found otherwise.  There is no test of the lower bound. -/
def specLookup (records : List IPRecord) (key : Nat) : Option LocationResponse :=
  if specPos records key = 0 then none
  else
    match records[specPos records key - 1]? with
    | none => none
    | some r =>
      if key ≤ r.UpperIPIP then
        some { Country := r.CountryName, CountryCode := r.CountryCode, City := r.City }
      else none

/-- An index that is not sorted by lower bound. -/
def unsortedDatabase : List IPRecord :=
  [ { LowerIPID := 50, UpperIPIP := 60, CountryCode := str "BB", CountryName := str "Bland",
      Region := str "", City := str "Bcity" },
    { LowerIPID := 10, UpperIPIP := 20, CountryCode := str "AA", CountryName := str "Aland",
      Region := str "", City := str "Acity" },
    { LowerIPID := 30, UpperIPIP := 40, CountryCode := str "CC", CountryName := str "Cland",
      Region := str "", City := str "Ccity" } ]

/-- The key expression returned by `ipToID` (line 44 of `main.go`) for the four bytes of the
address: `(uint32(a) << 24) | (uint32(b) << 16) | (uint32(c) << 8) | uint32(d)`. -/
def packKey (a b c d : Nat) : Nat :=
  ((a <<< 24) % 2 ^ 32) ||| ((b <<< 16) % 2 ^ 32) ||| ((c <<< 8) % 2 ^ 32) ||| d

/-! ## Facts about the binary search -/

/-- On every index the search loop returns (no panic) a position between its bounds; the record
just before the position, when inside the searched window, has `lower ≤ id`, and the record at the
position, when inside the window, has `lower > id`.  No sortedness is needed. -/
theorem search_loop_spec (db : List IPRecord) (id : Nat) :
    ∀ d i j, j - i = d → i ≤ j → j ≤ db.length →
      ∃ pos, sort.Search.loop (lowerAbove db id) i j = .returns pos ∧ i ≤ pos ∧ pos ≤ j ∧
        (i < pos → ∃ r, db[pos - 1]? = some r ∧ r.LowerIPID ≤ id) ∧
        (pos < j → ∃ r, db[pos]? = some r ∧ id < r.LowerIPID) := by
  intro d
  induction d using Nat.strong_induction_on with
  | _ d ih =>
    intro i j hd hij hj
    rw [sort.Search.loop]
    by_cases hlt : i < j
    · have hm : (i + j) / 2 < db.length := by omega
      have hget : db[(i + j) / 2]? = some (db[(i + j) / 2]) := List.getElem?_eq_getElem hm
      simp only [hlt, if_true, lowerAbove, hget]
      by_cases hp : (db[(i + j) / 2]).LowerIPID > id
      · simp only [hp, decide_True]
        obtain ⟨pos, h1, h2, h3, h4, h5⟩ :=
          ih ((i + j) / 2 - i) (by omega) i ((i + j) / 2) rfl (by omega) (by omega)
        refine ⟨pos, h1, h2, by omega, h4, ?_⟩
        intro hpj
        by_cases he : pos = (i + j) / 2
        · exact ⟨_, by rw [he]; exact hget, hp⟩
        · exact h5 (by omega)
      · simp only [hp, decide_False]
        obtain ⟨pos, h1, h2, h3, h4, h5⟩ :=
          ih (j - ((i + j) / 2 + 1)) (by omega) ((i + j) / 2 + 1) j rfl (by omega) hj
        refine ⟨pos, h1, by omega, h3, ?_, h5⟩
        intro hip
        by_cases he : pos = (i + j) / 2 + 1
        · exact ⟨_, by rw [he]; exact hget, by omega⟩
        · exact h4 (by omega)
    · simp only [hlt, if_false]
      exact ⟨i, rfl, le_refl _, hij, fun h => absurd h (lt_irrefl _), fun h => absurd h hlt⟩

/-- The search position of `findLocationByIPID` on an arbitrary index. -/
theorem searchIndex_spec (db : List IPRecord) (id : Nat) :
    ∃ pos, searchIndex db id = .returns pos ∧ pos ≤ db.length ∧
      (0 < pos → ∃ r, db[pos - 1]? = some r ∧ r.LowerIPID ≤ id) ∧
      (pos < db.length → ∃ r, db[pos]? = some r ∧ id < r.LowerIPID) := by
  obtain ⟨pos, h1, _, h3, h4, h5⟩ :=
    search_loop_spec db id db.length 0 db.length rfl (Nat.zero_le _) (le_refl _)
  exact ⟨pos, h1, h3, h4, h5⟩

/-- In a sorted index lower bounds grow with the position. -/
theorem sorted_lower_le {db : List IPRecord} (hs : SortedByLower db) {a b : Nat}
    {r s : IPRecord} (ha : db[a]? = some r) (hb : db[b]? = some s) (hab : a ≤ b) :
    r.LowerIPID ≤ s.LowerIPID := by
  obtain ⟨ha1, ha2⟩ := List.getElem?_eq_some.mp ha
  obtain ⟨hb1, hb2⟩ := List.getElem?_eq_some.mp hb
  rcases Nat.eq_or_lt_of_le hab with he | hl
  · subst he
    rw [ha] at hb
    cases hb
    exact le_refl _
  · have := (List.pairwise_iff_getElem.mp hs) a b ha1 hb1 hl
    rw [ha2, hb2] at this
    exact this

/-- Unfolding of the lookup once the search position is known. -/
theorem find_of_searchIndex {db : List IPRecord} {id pos : Nat}
    (h : searchIndex db id = .returns pos) :
    findLocationByIPID db id =
      if pos > 0 then
        match db[pos - 1]? with
        | none => .panics
        | some record =>
          if id ≥ record.LowerIPID ∧ id ≤ record.UpperIPIP then
            .returns (some record.location)
          else .returns none
      else .returns none := by
  simp only [findLocationByIPID, h, IPRecord.location]

/-- On every index the lookup returns without panicking. -/
theorem find_returns (db : List IPRecord) (id : Nat) :
    ∃ res, findLocationByIPID db id = .returns res := by
  obtain ⟨pos, h1, h2, h3, _⟩ := searchIndex_spec db id
  rw [find_of_searchIndex h1]
  by_cases hp : pos > 0
  · obtain ⟨r, hr, _⟩ := h3 hp
    simp only [hp, if_true, hr]
    split <;> exact ⟨_, rfl⟩
  · simp only [hp, if_false]
    exact ⟨_, rfl⟩

/-- In a sorted index the search position lies beyond every record with `lower ≤ id`. -/
theorem searchIndex_gt_of_lower_le {db : List IPRecord} (hs : SortedByLower db) {id pos k : Nat}
    {r : IPRecord} (hpos : searchIndex db id = .returns pos) (hk : db[k]? = some r)
    (hr : r.LowerIPID ≤ id) : k < pos := by
  obtain ⟨pos', h1, h2, _, h4⟩ := searchIndex_spec db id
  rw [hpos] at h1
  cases h1
  by_contra hcon
  have hklt : k < db.length := (List.getElem?_eq_some.mp hk).1
  obtain ⟨s, hs1, hs2⟩ := h4 (by omega)
  have := sorted_lower_le hs hs1 hk (by omega)
  omega

/-- In a sorted index the search position is at most the position of any record with
`lower > id`. -/
theorem searchIndex_le_of_lower_gt {db : List IPRecord} (hs : SortedByLower db) {id pos k : Nat}
    {r : IPRecord} (hpos : searchIndex db id = .returns pos) (hk : db[k]? = some r)
    (hr : id < r.LowerIPID) : pos ≤ k := by
  obtain ⟨pos', h1, _, h3, _⟩ := searchIndex_spec db id
  rw [hpos] at h1
  cases h1
  by_contra hcon
  obtain ⟨s, hs1, hs2⟩ := h3 (by omega)
  have := sorted_lower_le hs hk hs1 (by omega)
  omega

/-- On a sorted, well-formed, non-overlapping index a key inside a record is reported with that
record. -/
theorem find_of_contains {db : List IPRecord} (hs : SortedByLower db) (hw : WellFormed db)
    (hn : NonOverlapping db) {r : IPRecord} (hr : r ∈ db) {key : Nat} (hc : r.Contains key) :
    findLocationByIPID db key = .returns (some r.location) := by
  obtain ⟨k, hk⟩ := List.mem_iff_getElem?.mp hr
  obtain ⟨pos, h1, h2, h3, _⟩ := searchIndex_spec db key
  have hkpos : k < pos := searchIndex_gt_of_lower_le hs h1 hk hc.1
  obtain ⟨c, hc1, hc2⟩ := h3 (by omega)
  have hceq : c = r := by
    by_cases hkp : k = pos - 1
    · rw [← hkp, hk] at hc1
      cases hc1
      rfl
    · exfalso
      obtain ⟨hk1, hk2⟩ := List.getElem?_eq_some.mp hk
      obtain ⟨hp1, hp2⟩ := List.getElem?_eq_some.mp hc1
      have hno := (List.pairwise_iff_getElem.mp hn) k (pos - 1) hk1 hp1 (by omega)
      rw [hk2, hp2] at hno
      have hsl := sorted_lower_le hs hk hc1 (by omega)
      have hwc := hw c (List.mem_iff_getElem?.mpr ⟨_, hc1⟩)
      have := hc.1
      have := hc.2
      omega
  subst hceq
  rw [find_of_searchIndex h1]
  have hp : pos > 0 := by omega
  simp only [hp, if_true, hc1]
  rw [if_pos ⟨hc.1, hc.2⟩]

/-- Whenever the lookup reports a location, some record of the index contains the key and
carries that location. -/
theorem find_some_contains {db : List IPRecord} {id : Nat} {loc : LocationResponse}
    (h : findLocationByIPID db id = .returns (some loc)) :
    ∃ r ∈ db, r.Contains id ∧ loc = r.location := by
  obtain ⟨pos, h1, _, h3, _⟩ := searchIndex_spec db id
  rw [find_of_searchIndex h1] at h
  by_cases hp : pos > 0
  · obtain ⟨r, hr, _⟩ := h3 hp
    simp only [hp, if_true, hr] at h
    by_cases hc : id ≥ r.LowerIPID ∧ id ≤ r.UpperIPIP
    · rw [if_pos hc] at h
      cases h
      exact ⟨r, List.mem_iff_getElem?.mpr ⟨_, hr⟩, hc, rfl⟩
    · rw [if_neg hc] at h
      cases h
  · simp only [hp, if_false] at h
    cases h

/-- The lookup examines the record just before the search position: if the key is above that
record's upper bound the result is `nil`. -/
theorem find_none_of_candidate {db : List IPRecord} {id pos : Nat} {c : IPRecord}
    (hpos : searchIndex db id = .returns pos) (hp : 0 < pos) (hc : db[pos - 1]? = some c)
    (hup : c.UpperIPIP < id) : findLocationByIPID db id = .returns none := by
  rw [find_of_searchIndex hpos]
  have hp' : pos > 0 := hp
  simp only [hp', if_true, hc]
  rw [if_neg (by omega)]

/-! ## The lookup contract -/

/-- C1: on an index sorted by lower bound, with `lower ≤ upper` in every record and pairwise
disjoint ranges, the lookup of any key returns the (CountryName, CountryCode, City) of the record
containing the key when there is one, and returns `nil` exactly when no record contains the key. -/
theorem lookup_correct (db : List IPRecord) (key : Nat) (hs : SortedByLower db)
    (hw : WellFormed db) (hn : NonOverlapping db) :
    (∀ r ∈ db, r.LowerIPID ≤ key ∧ key ≤ r.UpperIPIP →
        findLocationByIPID db key = .returns (some
          { Country := r.CountryName, CountryCode := r.CountryCode, City := r.City })) ∧
    (findLocationByIPID db key = .returns none ↔
        ∀ r ∈ db, ¬ (r.LowerIPID ≤ key ∧ key ≤ r.UpperIPIP)) := by
  refine ⟨fun r hr hc => find_of_contains hs hw hn hr hc, ?_, ?_⟩
  · intro hnone r hr hc
    have := find_of_contains hs hw hn hr hc
    rw [hnone] at this
    cases this
  · intro hall
    obtain ⟨res, hres⟩ := find_returns db key
    cases res with
    | none => exact hres
    | some loc =>
      obtain ⟨r, hr, hc, _⟩ := find_some_contains hres
      exact absurd hc (hall r hr)

/-- The lookup contract on the test index: `8.8.8.8` is found in the New York record. -/
theorem lookup_correct_witness :
    SortedByLower mockDatabase ∧ WellFormed mockDatabase ∧ NonOverlapping mockDatabase ∧
    findLocationByIPID mockDatabase 134744072 = .returns (some
      { Country := str "United States", CountryCode := str "US", City := str "New York" }) :=
  ⟨by decide, by decide, by decide,
    (lookup_correct mockDatabase 134744072 (by decide) (by decide) (by decide)).1
      { LowerIPID := 134744072, UpperIPIP := 134744072, CountryCode := str "US",
        CountryName := str "United States", Region := str "", City := str "New York" }
      (by decide) (by decide)⟩

/-- C4 as stated (sortedness only) fails: in a sorted index with overlapping ranges the upper
bound of the first record is not found, and in a sorted index with an inverted record the lower
bound of that record is not found. -/
theorem boundary_lookup_counterexample :
    (SortedByLower overlapDatabase ∧
      ({ LowerIPID := 1, UpperIPIP := 10, CountryCode := str "AA", CountryName := str "Aland",
         Region := str "", City := str "Acity" } : IPRecord) ∈ overlapDatabase ∧
      findLocationByIPID overlapDatabase 10 = .returns none) ∧
    (SortedByLower invertedDatabase ∧
      ({ LowerIPID := 5, UpperIPIP := 3, CountryCode := str "AA", CountryName := str "Aland",
         Region := str "", City := str "Acity" } : IPRecord) ∈ invertedDatabase ∧
      findLocationByIPID invertedDatabase 5 = .returns none) := by
  refine ⟨⟨by decide, by decide, ?_⟩, ⟨by decide, by decide, ?_⟩⟩
  · simp [findLocationByIPID, searchIndex, sort.Search, sort.Search.loop, lowerAbove,
      overlapDatabase]
  · simp [findLocationByIPID, searchIndex, sort.Search, sort.Search.loop, lowerAbove,
      invertedDatabase]

/-- C4 (amended): on an index sorted by lower bound whose records have `lower ≤ upper` and
pairwise disjoint ranges, both bounds of every record are found with that record's country name,
country code and city. -/
theorem boundary_lookup (db : List IPRecord) (hs : SortedByLower db) (hw : WellFormed db)
    (hn : NonOverlapping db) (r : IPRecord) (hr : r ∈ db) :
    findLocationByIPID db r.LowerIPID = .returns (some
        { Country := r.CountryName, CountryCode := r.CountryCode, City := r.City }) ∧
    findLocationByIPID db r.UpperIPIP = .returns (some
        { Country := r.CountryName, CountryCode := r.CountryCode, City := r.City }) :=
  ⟨find_of_contains hs hw hn hr ⟨le_refl _, hw r hr⟩,
    find_of_contains hs hw hn hr ⟨hw r hr, le_refl _⟩⟩

/-- The inclusive-boundary test of the spec: both ends of the Mountain View range are found. -/
theorem boundary_lookup_witness :
    SortedByLower mockDatabase ∧ WellFormed mockDatabase ∧ NonOverlapping mockDatabase ∧
    findLocationByIPID mockDatabase 16777216 = .returns (some
        { Country := str "United States", CountryCode := str "US", City := str "Mountain View" }) ∧
    findLocationByIPID mockDatabase 16777471 = .returns (some
        { Country := str "United States", CountryCode := str "US", City := str "Mountain View" }) :=
  ⟨by decide, by decide, by decide,
    boundary_lookup mockDatabase (by decide) (by decide) (by decide)
      { LowerIPID := 16777216, UpperIPIP := 16777471, CountryCode := str "US",
        CountryName := str "United States", Region := str "", City := str "Mountain View" } (by decide)⟩

/-- C5 as stated (sortedness only) fails: the index is sorted, key 20 lies strictly between the
upper bound 10 of record 1 and the lower bound 60 of record 2, yet the lookup finds record 0. -/
theorem gap_lookup_counterexample :
    SortedByLower invertedMiddleDatabase ∧
    invertedMiddleDatabase[1]? = some
      { LowerIPID := 50, UpperIPIP := 10, CountryCode := str "BB", CountryName := str "Bland",
        Region := str "", City := str "Bcity" } ∧
    invertedMiddleDatabase[2]? = some
      { LowerIPID := 60, UpperIPIP := 70, CountryCode := str "CC", CountryName := str "Cland",
        Region := str "", City := str "Ccity" } ∧
    10 < 20 ∧ 20 < 60 ∧
    findLocationByIPID invertedMiddleDatabase 20 = .returns (some
      { Country := str "Aland", CountryCode := str "AA", City := str "Acity" }) := by
  refine ⟨by decide, by decide, by decide, by decide, by decide, ?_⟩
  simp [findLocationByIPID, searchIndex, sort.Search, sort.Search.loop, lowerAbove,
    invertedMiddleDatabase]

/-- C5 (amended): on an index sorted by lower bound, for consecutive records `records[i]`,
`records[i+1]` where `records[i]` has `lower ≤ upper`, every key with
`records[i].upper < key < records[i+1].lower` is not found. -/
theorem gap_lookup (db : List IPRecord) (hs : SortedByLower db) (i : Nat) (a b : IPRecord)
    (ha : db[i]? = some a) (hb : db[i + 1]? = some b) (hwa : a.LowerIPID ≤ a.UpperIPIP)
    (key : Nat) (h1 : a.UpperIPIP < key) (h2 : key < b.LowerIPID) :
    findLocationByIPID db key = .returns none := by
  obtain ⟨pos, hpos, _, _, _⟩ := searchIndex_spec db key
  have hlo : i < pos := searchIndex_gt_of_lower_le hs hpos ha (by omega)
  have hhi : pos ≤ i + 1 := searchIndex_le_of_lower_gt hs hpos hb h2
  have hpe : pos - 1 = i := by omega
  exact find_none_of_candidate hpos (by omega) (by rw [hpe]; exact ha) h1

/-- The gap test of `main_test.go`: 100000000 lies between the first two test ranges. -/
theorem gap_lookup_witness :
    SortedByLower mockDatabase ∧ findLocationByIPID mockDatabase 100000000 = .returns none :=
  ⟨by decide,
    gap_lookup mockDatabase (by decide) 0
      { LowerIPID := 16777216, UpperIPIP := 16777471, CountryCode := str "US",
        CountryName := str "United States", Region := str "", City := str "Mountain View" }
      { LowerIPID := 134744072, UpperIPIP := 134744072, CountryCode := str "US",
        CountryName := str "United States", Region := str "", City := str "New York" }
      rfl rfl (by decide) 100000000 (by decide) (by decide)⟩

/-- C6: when no record has `lower ≤ key` the search position is 0 and the lookup returns `nil`,
on every index (sorted or not); in particular on the empty index for every key, and on a sorted
index for every key below the first record's lower bound. -/
theorem lookup_below_all :
    (∀ (db : List IPRecord) (key : Nat), (∀ r ∈ db, ¬ r.LowerIPID ≤ key) →
      searchIndex db key = .returns 0 ∧ findLocationByIPID db key = .returns none) ∧
    (∀ key : Nat, searchIndex [] key = .returns 0 ∧ findLocationByIPID [] key = .returns none) ∧
    (∀ (first : IPRecord) (rest : List IPRecord) (key : Nat), SortedByLower (first :: rest) →
      key < first.LowerIPID →
      searchIndex (first :: rest) key = .returns 0 ∧
        findLocationByIPID (first :: rest) key = .returns none) := by
  have main : ∀ (db : List IPRecord) (key : Nat), (∀ r ∈ db, ¬ r.LowerIPID ≤ key) →
      searchIndex db key = .returns 0 ∧ findLocationByIPID db key = .returns none := by
    intro db key hall
    obtain ⟨pos, hpos, _, h3, _⟩ := searchIndex_spec db key
    have hz : pos = 0 := by
      by_contra hne
      obtain ⟨r, hr, hle⟩ := h3 (by omega)
      exact hall r (List.mem_iff_getElem?.mpr ⟨_, hr⟩) hle
    subst hz
    refine ⟨hpos, ?_⟩
    rw [find_of_searchIndex hpos]
    simp
  refine ⟨main, fun key => main [] key (by simp), ?_⟩
  intro first rest key hs hlt
  apply main
  intro r hr hle
  obtain ⟨k, hk⟩ := List.mem_iff_getElem?.mp hr
  have h0 : (first :: rest)[0]? = some first := by simp
  have := sorted_lower_le hs h0 hk (Nat.zero_le _)
  omega

/-- The below-all-ranges test of `main_test.go`: key 1 on the test index. -/
theorem lookup_below_all_witness :
    (∀ r ∈ mockDatabase, ¬ r.LowerIPID ≤ 1) ∧
    searchIndex mockDatabase 1 = .returns 0 ∧ findLocationByIPID mockDatabase 1 = .returns none :=
  ⟨by decide, lookup_below_all.1 mockDatabase 1 (by decide)⟩

/-- C7 as stated (sortedness only) fails: the index is sorted and non-empty, key 20 is above the
upper bound 10 of the last record, yet the lookup finds the first record. -/
theorem lookup_above_last_counterexample :
    SortedByLower invertedLastDatabase ∧ invertedLastDatabase ≠ [] ∧
    invertedLastDatabase.getLast? = some
      { LowerIPID := 50, UpperIPIP := 10, CountryCode := str "BB", CountryName := str "Bland",
        Region := str "", City := str "Bcity" } ∧
    10 < 20 ∧
    findLocationByIPID invertedLastDatabase 20 = .returns (some
      { Country := str "Aland", CountryCode := str "AA", City := str "Acity" }) := by
  refine ⟨by decide, by decide, by decide, by decide, ?_⟩
  simp [findLocationByIPID, searchIndex, sort.Search, sort.Search.loop, lowerAbove,
    invertedLastDatabase]

/-- C7 (amended): on a non-empty index sorted by lower bound whose last record has
`lower ≤ upper`, every key strictly above the last record's upper bound is not found. -/
theorem lookup_above_last (db : List IPRecord) (hs : SortedByLower db) (last : IPRecord)
    (hlast : db.getLast? = some last) (hwl : last.LowerIPID ≤ last.UpperIPIP)
    (key : Nat) (hk : last.UpperIPIP < key) :
    findLocationByIPID db key = .returns none := by
  rw [List.getLast?_eq_getElem?] at hlast
  obtain ⟨pos, hpos, hle, _, _⟩ := searchIndex_spec db key
  have hlt : db.length - 1 < pos := searchIndex_gt_of_lower_le hs hpos hlast (by omega)
  have hpe : pos - 1 = db.length - 1 := by omega
  exact find_none_of_candidate hpos (by omega) (by rw [hpe]; exact hlast) hk

/-- The above-all-ranges test of `main_test.go`: key 4000000000 on the test index. -/
theorem lookup_above_last_witness :
    SortedByLower mockDatabase ∧ findLocationByIPID mockDatabase 4000000000 = .returns none :=
  ⟨by decide,
    lookup_above_last mockDatabase (by decide)
      { LowerIPID := 3232235520, UpperIPIP := 3232236031, CountryCode := str "DE",
        CountryName := str "Germany", Region := str "", City := str "Berlin" }
      rfl (by decide) 4000000000 (by decide)⟩

/-! ## Facts about the IPv4 parser -/

theorem decVal_snoc (w : GoString) (c : Nat) :
    decVal (w ++ [c]) = decVal w * 10 + (c - 48) := by
  simp [decVal, List.foldl_append]

theorem decVal_le_append (y : GoString) : ∀ x : GoString, decVal x ≤ decVal (x ++ y) := by
  induction y with
  | nil => intro x; simp
  | cons c y ih =>
    intro x
    have h := ih (x ++ [c])
    rw [decVal_snoc, List.append_assoc] at h
    simp only [List.singleton_append] at h
    omega

theorem isOctet_iff (p : GoString) : IsOctet p ↔ p ≠ [] ∧ OctetPrefix p := by
  simp only [IsOctet, IsNumeral, OctetPrefix, Char.reduceToNat]
  tauto

theorem octetPrefix_nil : OctetPrefix [] := by
  simp [OctetPrefix, decVal]

/-- A prefix of an octet prefix is an octet prefix. -/
theorem octetPrefix_of_append {w q : GoString} (h : OctetPrefix (w ++ q)) : OctetPrefix w := by
  obtain ⟨h1, h2, h3⟩ := h
  refine ⟨fun c hc => h1 c (List.mem_append_left _ hc), ?_, ?_⟩
  · intro hl
    have := h2 (by simp; omega)
    cases w with
    | nil => simp at hl
    | cons a w => simpa using this
  · exact le_trans (decVal_le_append q w) h3

/-- The leading-zero test of the parser never fires inside an octet prefix that continues. -/
theorem no_leading_zero {w : GoString} {c : Nat} (h : OctetPrefix (w ++ [c])) :
    ¬ (w.length = 1 ∧ decVal w = 0) := by
  rintro ⟨hl, hv⟩
  obtain ⟨h1, h2, _⟩ := h
  match w, hl with
  | [a], _ =>
    have ha := h1 a (by simp)
    have := h2 (by simp)
    simp [decVal] at hv this
    omega

/-- Reading one more digit keeps the octet-prefix invariant, given the two tests of the parser. -/
theorem octetPrefix_snoc {w : GoString} {c : Nat} (hw : OctetPrefix w) (hc : 48 ≤ c ∧ c ≤ 57)
    (hz : ¬ (w.length = 1 ∧ decVal w = 0)) (hv : ¬ decVal w * 10 + c - 48 > 255) :
    OctetPrefix (w ++ [c]) := by
  obtain ⟨h1, h2, h3⟩ := hw
  refine ⟨?_, ?_, ?_⟩
  · intro d hd
    rcases List.mem_append.mp hd with hd | hd
    · exact h1 d hd
    · simp at hd; subst hd; exact hc
  · intro hl
    match w with
    | [] => simp at hl
    | [a] =>
      have ha := h1 a (by simp)
      simp [decVal] at hz ⊢
      omega
    | a :: b :: w =>
      have := h2 (by simp)
      simpa using this
  · rw [decVal_snoc]; omega

/-- Reading the remaining digits `q` of an octet: the loop reaches the end of the digits with the
value and digit count of the whole octet, and the last byte read is not a dot. -/
theorem ipv4_loop_digits (q : GoString) : ∀ (w : GoString) (prev : Option Nat) (rest : GoString)
    (pos : Nat) (fields : List Nat), OctetPrefix (w ++ q) →
    ∃ prev1, (q ≠ [] → prev1 ≠ none ∧ prev1 ≠ some 46) ∧ (q = [] → prev1 = prev) ∧
      netip.parseIPv4Fields.loop prev (q ++ rest) (decVal w) pos w.length fields =
        netip.parseIPv4Fields.loop prev1 rest (decVal (w ++ q)) pos (w ++ q).length fields := by
  induction q with
  | nil =>
    intro w prev rest pos fields _
    exact ⟨prev, by simp, by simp, by simp⟩
  | cons c q ih =>
    intro w prev rest pos fields h
    have h1 : OctetPrefix ((w ++ [c]) ++ q) := by simpa using h
    have hpre : OctetPrefix (w ++ [c]) := octetPrefix_of_append h1
    have hc : 48 ≤ c ∧ c ≤ 57 := hpre.1 c (by simp)
    have hz := no_leading_zero hpre
    have hv : decVal w * 10 + c - 48 ≤ 255 := by
      have := hpre.2.2
      rw [decVal_snoc] at this
      omega
    obtain ⟨prev1, hp1, hp2, hloop⟩ := ih (w ++ [c]) (some c) rest pos fields h1
    refine ⟨prev1, ?_, by simp, ?_⟩
    · intro _
      by_cases hq : q = []
      · have := hp2 hq
        subst this
        simp
        omega
      · exact hp1 hq
    · have e1 : decVal (w ++ [c]) = decVal w * 10 + c - 48 := by rw [decVal_snoc]; omega
      have e2 : (w ++ [c]).length = w.length + 1 := by simp
      have e3 : w ++ [c] ++ q = w ++ c :: q := by simp
      rw [e1, e2, e3] at hloop
      have step : netip.parseIPv4Fields.loop prev (c :: (q ++ rest)) (decVal w) pos w.length
          fields = netip.parseIPv4Fields.loop (some c) (q ++ rest) (decVal w * 10 + c - 48) pos
            (w.length + 1) fields := by
        simp only [netip.parseIPv4Fields.loop, Char.reduceToNat]
        rw [if_pos hc, if_neg hz, if_neg (by omega)]
      rw [List.cons_append, step, hloop]

/-- Reading a dot after a non-empty octet, with more input to come and fewer than three dots seen
so far. -/
theorem ipv4_loop_dot (prev : Option Nat) (rest : GoString) (val pos digLen : Nat)
    (fields : List Nat) (hp : prev ≠ none ∧ prev ≠ some 46) (hr : rest ≠ []) (hpos : pos < 3) :
    netip.parseIPv4Fields.loop prev (46 :: rest) val pos digLen fields =
      netip.parseIPv4Fields.loop (some 46) rest 0 (pos + 1) 0 (fields.set pos (val % 256)) := by
  simp only [netip.parseIPv4Fields.loop, Char.reduceToNat]
  have a : ¬ (prev = none ∨ rest = [] ∨ prev = some 46) := by simp [hp.1, hp.2, hr]
  have b : ¬ pos = 3 := by omega
  rw [if_neg (show ¬ (48 ≤ 46 ∧ 46 ≤ 57) by omega), if_pos True.intro, if_neg a, if_neg b]

/-- Reading one octet followed by a dot. -/
theorem ipv4_loop_octet_dot (p rest : GoString) (prev : Option Nat) (pos : Nat)
    (fields : List Nat) (hp : IsOctet p) (hr : rest ≠ []) (hpos : pos < 3) :
    netip.parseIPv4Fields.loop prev (p ++ 46 :: rest) 0 pos 0 fields =
      netip.parseIPv4Fields.loop (some 46) rest 0 (pos + 1) 0 (fields.set pos (decVal p)) := by
  obtain ⟨hne, hpre⟩ := (isOctet_iff p).mp hp
  obtain ⟨prev1, h1, _, h3⟩ := ipv4_loop_digits p [] prev (46 :: rest) pos fields (by simpa using hpre)
  have e0 : decVal [] = 0 := rfl
  simp only [e0, List.length_nil, List.nil_append] at h3
  rw [h3, ipv4_loop_dot prev1 rest _ _ _ _ (h1 hne) hr hpos]
  have : decVal p % 256 = decVal p := Nat.mod_eq_of_lt (by have := hpre.2.2; omega)
  rw [this]

/-- Reading the last octet. -/
theorem ipv4_loop_last (p : GoString) (prev : Option Nat) (fields : List Nat) (hp : IsOctet p) :
    netip.parseIPv4Fields.loop prev p 0 3 0 fields = some (fields.set 3 (decVal p)) := by
  obtain ⟨_, hpre⟩ := (isOctet_iff p).mp hp
  obtain ⟨prev1, _, _, h3⟩ := ipv4_loop_digits p [] prev [] 3 fields (by simpa using hpre)
  have e0 : decVal [] = 0 := rfl
  simp only [e0, List.length_nil, List.nil_append, List.append_nil] at h3
  rw [h3]
  have : decVal p % 256 = decVal p := Nat.mod_eq_of_lt (by have := hpre.2.2; omega)
  simp [netip.parseIPv4Fields.loop, this]

theorem isOctet_ne_nil {p : GoString} (hp : IsOctet p) : p ≠ [] := hp.1.1

/-- The IPv4 field parser accepts every dotted quad of octet numerals and stores their values. -/
theorem parseIPv4Fields_dotted (p0 p1 p2 p3 : GoString) (h0 : IsOctet p0) (h1 : IsOctet p1)
    (h2 : IsOctet p2) (h3 : IsOctet p3) :
    netip.parseIPv4Fields (dotted p0 p1 p2 p3) [0, 0, 0, 0] =
      some [decVal p0, decVal p1, decVal p2, decVal p3] := by
  have n1 := isOctet_ne_nil h1
  have n2 := isOctet_ne_nil h2
  have n3 := isOctet_ne_nil h3
  simp only [netip.parseIPv4Fields, dotted, Char.reduceToNat]
  rw [ipv4_loop_octet_dot p0 _ _ 0 _ h0 (by simp) (by omega),
    ipv4_loop_octet_dot p1 _ _ 1 _ h1 (by simp) (by omega),
    ipv4_loop_octet_dot p2 _ _ 2 _ h2 (by simpa using n3) (by omega),
    ipv4_loop_last p3 _ _ h3]
  simp

/-- Whatever the IPv4 field loop accepts is the rest of the current octet followed by the missing
number of dot-separated octet numerals. -/
theorem ipv4_loop_sound : ∀ (s w : GoString) (prev : Option Nat) (pos : Nat)
    (fields out : List Nat), OctetPrefix w → ((prev = none ∨ prev = some 46) ↔ w = []) →
    pos ≤ 3 → (w = [] → s ≠ [] ∨ pos < 3) →
    netip.parseIPv4Fields.loop prev s (decVal w) pos w.length fields = some out →
    ∃ q groups, s = q ++ List.flatMap groups (fun g => 46 :: g) ∧ IsOctet (w ++ q) ∧
      pos + groups.length = 3 ∧ ∀ g ∈ groups, IsOctet g := by
  intro s
  induction s with
  | nil =>
    intro w prev pos fields out hw _ hpos hne h
    simp only [netip.parseIPv4Fields.loop] at h
    by_cases hp : pos < 3
    · rw [if_pos hp] at h
      cases h
    · have hwne : w ≠ [] := by
        intro he
        rcases hne he with h1 | h1
        · exact h1 rfl
        · exact hp h1
      refine ⟨[], [], by simp, ?_, by simp; omega, by simp⟩
      rw [List.append_nil]
      exact (isOctet_iff w).mpr ⟨hwne, hw⟩
  | cons c rest ih =>
    intro w prev pos fields out hw hprev hpos _ h
    simp only [netip.parseIPv4Fields.loop, Char.reduceToNat] at h
    by_cases hc : 48 ≤ c ∧ c ≤ 57
    · rw [if_pos hc] at h
      by_cases hz : w.length = 1 ∧ decVal w = 0
      · rw [if_pos hz] at h
        cases h
      · rw [if_neg hz] at h
        by_cases hv : decVal w * 10 + c - 48 > 255
        · rw [if_pos hv] at h
          cases h
        · rw [if_neg hv] at h
          have e1 : decVal w * 10 + c - 48 = decVal (w ++ [c]) := by rw [decVal_snoc]; omega
          have e2 : w.length + 1 = (w ++ [c]).length := by simp
          rw [e1, e2] at h
          obtain ⟨q, groups, hs, ho, hl, hg⟩ :=
            ih (w ++ [c]) (some c) pos fields out (octetPrefix_snoc hw hc hz hv)
              (by simp; omega) hpos (by simp) h
          refine ⟨c :: q, groups, by simp [hs], ?_, hl, hg⟩
          simpa using ho
    · rw [if_neg hc] at h
      by_cases hd : c = 46
      · subst hd
        rw [if_pos rfl] at h
        by_cases ha : prev = none ∨ rest = [] ∨ prev = some 46
        · rw [if_pos ha] at h
          cases h
        · rw [if_neg ha] at h
          by_cases hb : pos = 3
          · rw [if_pos hb] at h
            cases h
          · rw [if_neg hb] at h
            have hrest : rest ≠ [] := fun he => ha (Or.inr (Or.inl he))
            have hwne : w ≠ [] := by
              intro he
              rcases hprev.mpr he with h1 | h1
              · exact ha (Or.inl h1)
              · exact ha (Or.inr (Or.inr h1))
            obtain ⟨q, groups, hs, ho, hl, hg⟩ :=
              ih [] (some 46) (pos + 1) (fields.set pos (decVal w % 256)) out octetPrefix_nil
                (by simp) (by omega) (fun _ => Or.inl hrest) h
            refine ⟨[], q :: groups, by simp [hs], ?_, by simp; omega, ?_⟩
            · rw [List.append_nil]
              exact (isOctet_iff w).mpr ⟨hwne, hw⟩
            · intro g hgm
              rcases List.mem_cons.mp hgm with hgq | hgq
              · subst hgq
                simpa using ho
              · exact hg g hgq
      · rw [if_neg hd] at h
        cases h

/-- Whatever the IPv4 field parser accepts is a dotted quad of octet numerals. -/
theorem parseIPv4Fields_sound {s : GoString} {fields out : List Nat}
    (h : netip.parseIPv4Fields s fields = some out) : IsDottedQuad s := by
  obtain ⟨q, groups, hs, ho, hl, hg⟩ :=
    ipv4_loop_sound s [] none 0 fields out octetPrefix_nil (by simp) (by omega)
      (fun _ => Or.inr (by omega)) h
  match groups, hl with
  | [g1, g2, g3], _ =>
    refine ⟨q, g1, g2, g3, by simpa using ho, hg g1 (by simp), hg g2 (by simp),
      hg g3 (by simp), ?_⟩
    simp [hs, dotted]

/-! ## Facts about the IPv6 parser and the dispatch -/

theorem ipv4_loop_length : ∀ (s : GoString) (prev : Option Nat) (val pos digLen : Nat)
    (fields out : List Nat), netip.parseIPv4Fields.loop prev s val pos digLen fields = some out →
    out.length = fields.length := by
  intro s
  induction s with
  | nil =>
    intro prev val pos digLen fields out h
    simp only [netip.parseIPv4Fields.loop] at h
    split at h
    · cases h
    · cases h
      simp
  | cons c rest ih =>
    intro prev val pos digLen fields out h
    simp only [netip.parseIPv4Fields.loop] at h
    split at h
    · split at h
      · cases h
      · split at h
        · cases h
        · exact ih _ _ _ _ _ _ h
    · split at h
      · split at h
        · cases h
        · split at h
          · cases h
          · have := ih _ _ _ _ _ _ h
            simpa using this
      · cases h

theorem v6_shift_length (e n : Nat) : ∀ (k : Nat) (ip : List Nat),
    (netip.parseIPv6.shift e n k ip).length = ip.length := by
  intro k
  induction k with
  | zero => intro ip; rfl
  | succ k ih =>
    intro ip
    simp only [netip.parseIPv6.shift]
    rw [ih]
    simp

/-- The main loop of the IPv6 parser keeps the address 16 bytes long and the ellipsis position at
or before the write position. -/
theorem v6_loop_inv : ∀ (d : Nat) (s : GoString) (ip : List Nat) (e : Int) (i : Nat)
    (st : netip.V6State), 16 - i = d → ip.length = 16 → e ≤ (i : Int) →
    netip.parseIPv6.loop s ip e i = some st → st.ip.length = 16 ∧ st.ellipsis ≤ (st.i : Int) := by
  intro d
  induction d using Nat.strong_induction_on with
  | _ d ih =>
    intro s ip e i st hd hlen he h
    rw [netip.parseIPv6.loop] at h
    split at h
    · split at h
      · cases h
      · rename_i off acc _
        split at h
        · cases h
        · split at h
          · split at h
            · cases h
            · split at h
              · cases h
              · split at h
                · cases h
                · rename_i fields hf
                  cases h
                  have := ipv4_loop_length _ _ _ _ _ _ _ hf
                  simp at this
                  simp
                  omega
          · simp only at h
            split at h
            · cases h
              simp [hlen]
              omega
            · split at h
              · cases h
              · split at h
                · cases h
                · split at h
                  · split at h
                    · cases h
                    · split at h
                      · cases h
                        simp [hlen]
                      · exact ih (16 - (i + 2)) (by omega) _ _ _ _ _ rfl (by simp [hlen])
                          (by simp) h
                  · exact ih (16 - (i + 2)) (by omega) _ _ _ _ _ rfl (by simp [hlen])
                      (by push_cast; omega) h
    · cases h
      exact ⟨hlen, he⟩

theorem v6_finish_from16 {st : netip.V6State} {zone : GoString} {addr : netip.Addr}
    (hlen : st.ip.length = 16) (he : st.ellipsis ≤ (st.i : Int))
    (h : netip.parseIPv6.finish st zone = some addr) :
    ∃ ip, addr = .from16 ip zone ∧ ip.length = 16 := by
  simp only [netip.parseIPv6.finish] at h
  split at h
  · cases h
  · split at h
    · split at h
      · cases h
      · cases h
        refine ⟨_, rfl, ?_⟩
        simp [v6_shift_length, hlen]
        omega
    · split at h
      · cases h
      · cases h
        exact ⟨_, rfl, hlen⟩

theorem v6_address_from16 {s zone : GoString} {addr : netip.Addr}
    (h : netip.parseIPv6.address s zone = some addr) :
    ∃ ip, addr = .from16 ip zone ∧ ip.length = 16 := by
  simp only [netip.parseIPv6.address] at h
  split at h
  · split at h
    · cases h
      exact ⟨_, rfl, by simp⟩
    · split at h
      · cases h
      · rename_i st hst
        have hinv := v6_loop_inv _ _ _ _ _ _ rfl (by simp) (by simp) hst
        exact v6_finish_from16 hinv.1 hinv.2 h
  · split at h
    · cases h
    · rename_i st hst
      have hinv := v6_loop_inv _ _ _ _ _ _ rfl (by simp) (by simp) hst
      exact v6_finish_from16 hinv.1 hinv.2 h

/-- The IPv6 parser only produces 16-byte addresses. -/
theorem parseIPv6_from16 {s : GoString} {addr : netip.Addr} (h : netip.parseIPv6 s = some addr) :
    ∃ ip zone, addr = .from16 ip zone ∧ ip.length = 16 := by
  simp only [netip.parseIPv6] at h
  split at h
  · split at h
    · cases h
    · obtain ⟨ip, h1, h2⟩ := v6_address_from16 h
      exact ⟨ip, _, h1, h2⟩
  · obtain ⟨ip, h1, h2⟩ := v6_address_from16 h
    exact ⟨ip, _, h1, h2⟩

/-- An address that `ParseAddr` reports as IPv4 was read by the IPv4 field parser from the whole
string. -/
theorem parseAddr_scan_from4 (s : GoString) {fields : List Nat} : ∀ l : List Nat,
    netip.ParseAddr.scan s l = some (.from4 fields) →
    netip.parseIPv4Fields s [0, 0, 0, 0] = some fields := by
  intro l
  induction l with
  | nil => intro h; simp [netip.ParseAddr.scan] at h
  | cons c rest ih =>
    intro h
    simp only [netip.ParseAddr.scan] at h
    split at h
    · simp only [netip.parseIPv4] at h
      split at h
      · cases h
      · rename_i f hf
        cases h
        exact hf
    · split at h
      · obtain ⟨ip, zone, h1, _⟩ := parseIPv6_from16 h
        cases h1
      · split at h
        · cases h
        · exact ih h

/-- An address that `ParseAddr` reports as IPv6 has 16 bytes. -/
theorem parseAddr_scan_from16 (s : GoString) {ip : List Nat} {zone : GoString} :
    ∀ l : List Nat, netip.ParseAddr.scan s l = some (.from16 ip zone) → ip.length = 16 := by
  intro l
  induction l with
  | nil => intro h; simp [netip.ParseAddr.scan] at h
  | cons c rest ih =>
    intro h
    simp only [netip.ParseAddr.scan] at h
    split at h
    · simp only [netip.parseIPv4] at h
      split at h
      · cases h
      · cases h
    · split at h
      · obtain ⟨ip1, zone1, h1, h2⟩ := parseIPv6_from16 h
        cases h1
        exact h2
      · split at h
        · cases h
        · exact ih h

/-- A dotted quad is dispatched to the IPv4 parser: its first byte of interest is a dot. -/
theorem parseAddr_scan_digits (s : GoString) : ∀ (p rest : GoString),
    (∀ c ∈ p, 48 ≤ c ∧ c ≤ 57) →
    netip.ParseAddr.scan s (p ++ 46 :: rest) = netip.parseIPv4 s := by
  intro p
  induction p with
  | nil => intro rest _; simp [netip.ParseAddr.scan]
  | cons c p ih =>
    intro rest hp
    have hc := hp c (by simp)
    simp only [List.cons_append, netip.ParseAddr.scan, Char.reduceToNat]
    rw [if_neg (by omega), if_neg (by omega), if_neg (by omega)]
    exact ih rest (fun d hd => hp d (by simp [hd]))

/-! ## Facts about `ipToID` -/

/-- For octets below 256 the shift-and-or packing is the positional sum and fits in 32 bits. -/
theorem pack_eq (a b c d : Nat) (ha : a ≤ 255) (hb : b ≤ 255) (hc : c ≤ 255) (hd : d ≤ 255) :
    ((a <<< 24) % 2 ^ 32) ||| ((b <<< 16) % 2 ^ 32) ||| ((c <<< 8) % 2 ^ 32) ||| d =
      a * 2 ^ 24 + b * 2 ^ 16 + c * 2 ^ 8 + d := by
  simp only [Nat.shiftLeft_eq]
  rw [Nat.mod_eq_of_lt (by omega), Nat.mod_eq_of_lt (by omega), Nat.mod_eq_of_lt (by omega)]
  have e1 : a * 2 ^ 24 ||| b * 2 ^ 16 = a * 2 ^ 24 + b * 2 ^ 16 := by
    have := Nat.mul_add_lt_is_or (show b * 2 ^ 16 < 2 ^ 24 by omega) a
    rw [Nat.mul_comm (2 ^ 24) a] at this
    exact this.symm
  have e2 : (a * 2 ^ 24 + b * 2 ^ 16) ||| c * 2 ^ 8 = a * 2 ^ 24 + b * 2 ^ 16 + c * 2 ^ 8 := by
    have := Nat.mul_add_lt_is_or (show c * 2 ^ 8 < 2 ^ 16 by omega) (a * 2 ^ 8 + b)
    have e : 2 ^ 16 * (a * 2 ^ 8 + b) = a * 2 ^ 24 + b * 2 ^ 16 := by ring
    rw [e] at this
    exact this.symm
  have e3 : (a * 2 ^ 24 + b * 2 ^ 16 + c * 2 ^ 8) ||| d =
      a * 2 ^ 24 + b * 2 ^ 16 + c * 2 ^ 8 + d := by
    have := Nat.mul_add_lt_is_or (show d < 2 ^ 8 by omega) (a * 2 ^ 16 + b * 2 ^ 8 + c)
    have e : 2 ^ 8 * (a * 2 ^ 16 + b * 2 ^ 8 + c) = a * 2 ^ 24 + b * 2 ^ 16 + c * 2 ^ 8 := by ring
    rw [e] at this
    exact this.symm
  rw [e1, e2, e3]

/-- The encoder accepts every dotted quad of octet numerals and returns the packed key. -/
theorem ipToID_of_dotted (p0 p1 p2 p3 : GoString) (h0 : IsOctet p0) (h1 : IsOctet p1)
    (h2 : IsOctet p2) (h3 : IsOctet p3) :
    ipToID (dotted p0 p1 p2 p3) =
      (decVal p0 * 2 ^ 24 + decVal p1 * 2 ^ 16 + decVal p2 * 2 ^ 8 + decVal p3, none) := by
  have hp := parseIPv4Fields_dotted p0 p1 p2 p3 h0 h1 h2 h3
  have hdig : ∀ c ∈ p0, 48 ≤ c ∧ c ≤ 57 := ((isOctet_iff p0).mp h0).2.1
  have hscan : netip.ParseAddr (dotted p0 p1 p2 p3) = netip.parseIPv4 (dotted p0 p1 p2 p3) := by
    have := parseAddr_scan_digits (dotted p0 p1 p2 p3) p0
      (p1 ++ 46 :: (p2 ++ 46 :: p3)) hdig
    simpa [netip.ParseAddr, dotted] using this
  have hparse : net.ParseIP (dotted p0 p1 p2 p3) =
      some [0, 0, 0, 0, 0, 0, 0, 0, 0, 0, 0xff, 0xff, decVal p0, decVal p1, decVal p2,
        decVal p3] := by
    simp [net.ParseIP, hscan, netip.parseIPv4, hp, netip.Addr.Zone, netip.Addr.As16]
  have hto4 : net.IP.To4 [0, 0, 0, 0, 0, 0, 0, 0, 0, 0, 0xff, 0xff, decVal p0, decVal p1,
      decVal p2, decVal p3] = some [decVal p0, decVal p1, decVal p2, decVal p3] := by
    simp [net.IP.To4]
  simp only [ipToID, hparse, hto4]
  have := pack_eq (decVal p0) (decVal p1) (decVal p2) (decVal p3) h0.2.2 h1.2.2 h2.2.2 h3.2.2
  simpa using this

/-- Every byte of a dotted quad is a digit or a dot. -/
theorem dottedQuad_bytes {s : GoString} (h : IsDottedQuad s) :
    ∀ c ∈ s, (48 ≤ c ∧ c ≤ 57) ∨ c = 46 := by
  obtain ⟨p0, p1, p2, p3, h0, h1, h2, h3, hs⟩ := h
  have d0 := ((isOctet_iff p0).mp h0).2.1
  have d1 := ((isOctet_iff p1).mp h1).2.1
  have d2 := ((isOctet_iff p2).mp h2).2.1
  have d3 := ((isOctet_iff p3).mp h3).2.1
  intro c hc
  subst hs
  simp only [dotted, Char.reduceToNat, List.mem_append, List.mem_cons] at hc
  rcases hc with hc | hc | hc | hc | hc | hc | hc
  · exact Or.inl (d0 c hc)
  · exact Or.inr hc
  · exact Or.inl (d1 c hc)
  · exact Or.inr hc
  · exact Or.inl (d2 c hc)
  · exact Or.inr hc
  · exact Or.inl (d3 c hc)

/-- A 16-byte address that `To4` converts starts with ten zero bytes and two `0xff` bytes. -/
theorem to4_of_length16 {ip ip4 : List Nat} (hlen : ip.length = 16)
    (h : net.IP.To4 ip = some ip4) :
    ip.take 12 = [0, 0, 0, 0, 0, 0, 0, 0, 0, 0, 0xff, 0xff] ∧ ip4 = ip.drop 12 := by
  match ip, hlen with
  | [b0, b1, b2, b3, b4, b5, b6, b7, b8, b9, b10, b11, b12, b13, b14, b15], _ =>
    simp only [net.IP.To4] at h
    rw [if_neg (by simp)] at h
    split at h
    · rename_i hc
      cases h
      simp at hc
      simp [hc]
    · cases h

/-- The slice returned by `To4` has four bytes, so `ipToID` indexes it in range. -/
theorem to4_length {ip ip4 : List Nat} (h : net.IP.To4 ip = some ip4) : ip4.length = 4 := by
  simp only [net.IP.To4] at h
  split at h
  · cases h
    assumption
  · split at h
    · rename_i hc
      cases h
      simp [hc.1]
    · cases h

/-- The address returned by `net.ParseIP` always has 16 bytes. -/
theorem parseIP_length {s : GoString} {ip : List Nat} (h : net.ParseIP s = some ip) :
    ip.length = 16 := by
  simp only [net.ParseIP] at h
  split at h
  · cases h
  · rename_i addr haddr
    split at h
    · cases h
    · cases h
      cases addr with
      | from4 fields =>
        have := ipv4_loop_length _ _ _ _ _ _ _ (parseAddr_scan_from4 s s haddr)
        simp [netip.Addr.As16, this]
      | from16 ip zone => exact parseAddr_scan_from16 s s haddr

/-- An address that `ParseAddr` reports as IPv6 comes from a string that contains a colon. -/
theorem parseAddr_scan_from16_colon (s : GoString) {ip : List Nat} {zone : GoString} :
    ∀ l : List Nat, netip.ParseAddr.scan s l = some (.from16 ip zone) → 58 ∈ l := by
  intro l
  induction l with
  | nil => intro h; simp [netip.ParseAddr.scan] at h
  | cons c rest ih =>
    intro h
    simp only [netip.ParseAddr.scan, Char.reduceToNat] at h
    split at h
    · simp only [netip.parseIPv4] at h
      split at h
      · cases h
      · cases h
    · split at h
      · rename_i hc
        simp [hc]
      · split at h
        · cases h
        · exact List.mem_cons_of_mem _ (ih h)

/-- Whenever the encoder returns without error, the input is a dotted quad of octet numerals or
contains a colon. -/
theorem ipToID_ok_cases {s : GoString} (h : (ipToID s).2 = none) :
    IsDottedQuad s ∨ ':'.toNat ∈ s := by
  simp only [ipToID] at h
  split at h
  · cases h
  · rename_i ip hip
    split at h
    · cases h
    · rename_i ip4 hip4
      simp only [net.ParseIP] at hip
      split at hip
      · cases hip
      · rename_i addr haddr
        split at hip
        · cases hip
        · cases hip
          cases addr with
          | from4 fields =>
            exact Or.inl (parseIPv4Fields_sound (parseAddr_scan_from4 s s haddr))
          | from16 ip zone =>
            exact Or.inr (by simpa using parseAddr_scan_from16_colon s s haddr)

/-- When the encoder reports an error the returned key is 0. -/
theorem ipToID_error_value {s : GoString} (h : (ipToID s).2 ≠ none) :
    ∃ msg, ipToID s = (0, some msg) := by
  cases hP : net.ParseIP s with
  | none => exact ⟨"invalid IP address format", by simp only [ipToID, hP]⟩
  | some ip =>
    cases hT : net.IP.To4 ip with
    | none => exact ⟨"not an IPv4 address", by simp only [ipToID, hP, hT]⟩
    | some ip4 =>
      simp only [ipToID, hP, hT] at h
      exact absurd rfl h

/-! ## The encoder contract -/

/-- A string the IPv4 field parser rejects is not a dotted quad of octet numerals. -/
theorem not_dottedQuad_of_parse_none {s : GoString}
    (h : netip.parseIPv4Fields s [0, 0, 0, 0] = none) : ¬ IsDottedQuad s := by
  rintro ⟨p0, p1, p2, p3, h0, h1, h2, h3, hs⟩
  subst hs
  rw [parseIPv4Fields_dotted p0 p1 p2 p3 h0 h1 h2 h3] at h
  cases h

/-- C2 as stated fails on an octet written with a leading zero: in `01.2.3.4` every octet is a
decimal numeral with value in [0,255], yet the encoder reports an error. -/
theorem ipToID_leading_zero_counterexample :
    IsNumeral (str "01") ∧ decVal (str "01") ≤ 255 ∧
    IsNumeral (str "2") ∧ decVal (str "2") ≤ 255 ∧
    IsNumeral (str "3") ∧ decVal (str "3") ≤ 255 ∧
    IsNumeral (str "4") ∧ decVal (str "4") ≤ 255 ∧
    dotted (str "01") (str "2") (str "3") (str "4") = str "01.2.3.4" ∧
    ipToID (str "01.2.3.4") = (0, some "invalid IP address format") := by
  decide

/-- C2 (amended): for every dotted-decimal string `a.b.c.d` in which each octet is a decimal
numeral without a leading zero and with value in [0,255], the encoder succeeds and returns
exactly `a*2^24 + b*2^16 + c*2^8 + d`, which is below `2^32`; the four examples of the spec are
included. -/
theorem ipToID_dotted_quad :
    (∀ p0 p1 p2 p3 : GoString, IsOctet p0 → IsOctet p1 → IsOctet p2 → IsOctet p3 →
      ipToID (dotted p0 p1 p2 p3) =
        (decVal p0 * 2 ^ 24 + decVal p1 * 2 ^ 16 + decVal p2 * 2 ^ 8 + decVal p3, none) ∧
      decVal p0 * 2 ^ 24 + decVal p1 * 2 ^ 16 + decVal p2 * 2 ^ 8 + decVal p3 < 2 ^ 32) ∧
    ipToID (str "8.8.8.8") = (134744072, none) ∧
    ipToID (str "192.168.1.1") = (3232235777, none) ∧
    ipToID (str "0.0.0.0") = (0, none) ∧
    ipToID (str "255.255.255.255") = (4294967295, none) := by
  refine ⟨?_, by decide, by decide, by decide, by decide⟩
  intro p0 p1 p2 p3 h0 h1 h2 h3
  refine ⟨ipToID_of_dotted p0 p1 p2 p3 h0 h1 h2 h3, ?_⟩
  have := h0.2.2
  have := h1.2.2
  have := h2.2.2
  have := h3.2.2
  omega

/-- The loopback address of `main_test.go`, `127.0.0.1`, encodes to 2130706433. -/
theorem ipToID_dotted_quad_witness :
    IsOctet (str "127") ∧ IsOctet (str "0") ∧ IsOctet (str "1") ∧
    dotted (str "127") (str "0") (str "0") (str "1") = str "127.0.0.1" ∧
    decVal (str "127") * 2 ^ 24 + decVal (str "0") * 2 ^ 16 + decVal (str "0") * 2 ^ 8 +
      decVal (str "1") = 2130706433 ∧
    ipToID (dotted (str "127") (str "0") (str "0") (str "1")) =
      (decVal (str "127") * 2 ^ 24 + decVal (str "0") * 2 ^ 16 + decVal (str "0") * 2 ^ 8 +
        decVal (str "1"), none) :=
  ⟨by decide, by decide, by decide, by decide, by decide,
    (ipToID_dotted_quad.1 (str "127") (str "0") (str "0") (str "1") (by decide) (by decide)
      (by decide) (by decide)).1⟩

/-- Every string without a colon that is not a well-formed dotted-decimal IPv4 address (exactly
four octet numerals without leading zero, each in [0,255]) is rejected, with key 0; the three
malformed inputs of `main_test.go` are instances. -/
theorem ipToID_error_of_no_colon :
    (∀ s : GoString, ¬ IsDottedQuad s → ':'.toNat ∉ s → ∃ msg, ipToID s = (0, some msg)) ∧
    ipToID (str "not an ip") = (0, some "invalid IP address format") ∧
    ipToID (str "1.2.3") = (0, some "invalid IP address format") ∧
    ipToID (str "256.1.1.1") = (0, some "invalid IP address format") := by
  refine ⟨?_, by decide, by decide, by decide⟩
  intro s h4 h6
  apply ipToID_error_value
  intro hok
  rcases ipToID_ok_cases hok with h | h
  · exact h4 h
  · exact h6 h

/-- C3 (defect of the code): the claim requires an error for every IPv6 literal, and the code
does report `not an IPv4 address` for the IPv6 literals `::1` and `2001:db8::68`; but for the
IPv6 literal `::ffff:8.8.8.8`, which contains colons and is not a dotted-decimal IPv4 address,
`ipToID` returns the key 134744072 without error, the same key as for `8.8.8.8`. -/
theorem ipToID_accepts_mapped_ipv6 :
    ':'.toNat ∈ str "::ffff:8.8.8.8" ∧ ¬ IsDottedQuad (str "::ffff:8.8.8.8") ∧
    ipToID (str "::ffff:8.8.8.8") = (134744072, none) ∧
    ipToID (str "8.8.8.8") = (134744072, none) ∧
    ipToID (str "::1") = (0, some "not an IPv4 address") ∧
    ipToID (str "2001:db8::68") = (0, some "not an IPv4 address") := by
  refine ⟨by decide, not_dottedQuad_of_parse_none (by decide), ?_, by decide, ?_, ?_⟩
  · simp [ipToID, net.ParseIP, netip.ParseAddr, netip.ParseAddr.scan, str, utf8, netip.parseIPv6,
      netip.parseIPv6.address, netip.parseIPv6.finish, netip.parseIPv6.loop, netip.parseIPv6.hex,
      netip.parseIPv4Fields, netip.parseIPv4Fields.loop, net.IP.To4, netip.Addr.Zone,
      netip.Addr.As16, netip.parseIPv6.shift]
  · simp [ipToID, net.ParseIP, netip.ParseAddr, netip.ParseAddr.scan, str, utf8, netip.parseIPv6,
      netip.parseIPv6.address, netip.parseIPv6.finish, netip.parseIPv6.loop, netip.parseIPv6.hex,
      net.IP.To4, netip.Addr.Zone, netip.Addr.As16, netip.parseIPv6.shift]
  · simp [ipToID, net.ParseIP, netip.ParseAddr, netip.ParseAddr.scan, str, utf8, netip.parseIPv6,
      netip.parseIPv6.address, netip.parseIPv6.finish, netip.parseIPv6.loop, netip.parseIPv6.hex,
      net.IP.To4, netip.Addr.Zone, netip.Addr.As16, netip.parseIPv6.shift]

/-! ## The query boundary -/

/-- The value of a string of decimal digits read after the value `n`. -/
theorem decVal_cons_from (p : GoString) (n : Nat) :
    List.foldl (fun n c => n * 10 + (c - 48)) n p ≥ n := by
  induction p generalizing n with
  | nil => simp
  | cons c p ih =>
    simp only [List.foldl_cons]
    have := ih (n * 10 + (c - 48))
    omega

/-- The digit loop of `ParseUint(s, 10, 32)` on digits whose value stays below `2^32`: no error,
and the value read. -/
theorem parseUint_loop_digits (p : GoString) : ∀ n : Nat, (∀ c ∈ p, 48 ≤ c ∧ c ≤ 57) →
    List.foldl (fun n c => n * 10 + (c - 48)) n p < 2 ^ 32 →
    strconv.ParseUint.loop 10 ((2 ^ 64 - 1) / 10 + 1) (2 ^ 32 - 1) p n =
      (List.foldl (fun n c => n * 10 + (c - 48)) n p, none) := by
  induction p with
  | nil => intro n _ _; simp [strconv.ParseUint.loop]
  | cons c p ih =>
    intro n hd hv
    have hc := hd c (by simp)
    simp only [List.foldl_cons] at hv ⊢
    have hmono := decVal_cons_from p (n * 10 + (c - 48))
    simp only [strconv.ParseUint.loop, Char.reduceToNat]
    rw [if_pos hc, if_neg (by omega), if_neg (by omega), if_neg (by omega)]
    have e : (n * 10 % 2 ^ 64 + (c - 48)) % 2 ^ 64 = n * 10 + (c - 48) := by omega
    rw [e]
    exact ih _ (fun d hdm => hd d (by simp [hdm])) hv

/-- The digit loop of `ParseUint(s, 10, 32)` on a string that starts with digits whose value
reaches `2^32`: range error, and the value returned is `2^32 - 1`. -/
theorem parseUint_loop_overflow (ds rest : GoString) : ∀ n : Nat, n < 2 ^ 32 →
    (∀ c ∈ ds, 48 ≤ c ∧ c ≤ 57) →
    List.foldl (fun n c => n * 10 + (c - 48)) n ds ≥ 2 ^ 32 →
    strconv.ParseUint.loop 10 ((2 ^ 64 - 1) / 10 + 1) (2 ^ 32 - 1) (ds ++ rest) n =
      (2 ^ 32 - 1, some .ErrRange) := by
  induction ds with
  | nil => intro n hn _ hv; simp at hv; omega
  | cons c ds ih =>
    intro n hn hd hv
    have hc := hd c (by simp)
    simp only [List.foldl_cons] at hv
    simp only [List.cons_append, strconv.ParseUint.loop, Char.reduceToNat]
    rw [if_pos hc, if_neg (by omega), if_neg (by omega)]
    have e : (n * 10 % 2 ^ 64 + (c - 48)) % 2 ^ 64 = n * 10 + (c - 48) := by omega
    rw [e]
    by_cases hbig : n * 10 + (c - 48) > 2 ^ 32 - 1
    · rw [if_pos (Or.inr hbig)]
    · rw [if_neg (by omega)]
      exact ih _ (by omega) (fun d hdm => hd d (by simp [hdm])) hv

/-- The digit loop of `ParseUint(s, 10, 32)` on a string whose first non-digit byte comes after
digits with a value below `2^32`: syntax error, and the value returned is 0. -/
theorem parseUint_loop_syntax (ds : GoString) (c : Nat) (rest : GoString)
    (hc : ¬ (48 ≤ c ∧ c ≤ 57)) : ∀ n : Nat, (∀ d ∈ ds, 48 ≤ d ∧ d ≤ 57) →
    List.foldl (fun n c => n * 10 + (c - 48)) n ds < 2 ^ 32 →
    strconv.ParseUint.loop 10 ((2 ^ 64 - 1) / 10 + 1) (2 ^ 32 - 1) (ds ++ c :: rest) n =
      (0, some .ErrSyntax) := by
  induction ds with
  | nil =>
    intro n _ _
    simp only [List.nil_append, strconv.ParseUint.loop, Char.reduceToNat]
    rw [if_neg hc]
    split
    · rw [if_pos (by omega)]
    · rfl
  | cons d ds ih =>
    intro n hd hv
    have hdd := hd d (by simp)
    simp only [List.foldl_cons] at hv
    have hmono := decVal_cons_from ds (n * 10 + (d - 48))
    simp only [List.cons_append, strconv.ParseUint.loop, Char.reduceToNat]
    rw [if_pos hdd, if_neg (by omega), if_neg (by omega), if_neg (by omega)]
    have e : (n * 10 % 2 ^ 64 + (d - 48)) % 2 ^ 64 = n * 10 + (d - 48) := by omega
    rw [e]
    exact ih _ (fun x hx => hd x (by simp [hx])) hv

theorem parseUint_consts :
    (2 ^ 32 % 2 ^ 64 + 2 ^ 64 - 1) % 2 ^ 64 = 2 ^ 32 - 1 := by norm_num

/-- `ParseUint(s, 10, 32)` on a decimal numeral below `2^32`: its value, no error. -/
theorem parseUint_numeral {f : GoString} (hn : IsNumeral f) (hv : decVal f < 2 ^ 32) :
    strconv.ParseUint f 10 32 = (decVal f, none) := by
  simp only [IsNumeral, Char.reduceToNat] at hn
  simp only [decVal, Char.reduceToNat] at hv ⊢
  simp only [strconv.ParseUint]
  rw [if_neg hn.1, parseUint_consts]
  exact parseUint_loop_digits f 0 hn.2 hv

/-- `ParseUint(s, 10, 32)` on a field with a syntax error: value 0 and `ErrSyntax`. -/
theorem parseUint_notNumeric {f : GoString} (h : NotNumeric f) :
    strconv.ParseUint f 10 32 = (0, some .ErrSyntax) := by
  simp only [NotNumeric, decVal, Char.reduceToNat] at h
  rcases h with h | ⟨ds, c, rest, hf, hd, hv, hc⟩
  · simp only [strconv.ParseUint]
    rw [if_pos h]
  · subst hf
    simp only [strconv.ParseUint]
    rw [if_neg (by simp), parseUint_consts]
    exact parseUint_loop_syntax ds c rest hc 0 hd hv

/-- `ParseUint(s, 10, 32)` on a field out of range: value `2^32 - 1` and `ErrRange`. -/
theorem parseUint_outOfRange {f : GoString} (h : OutOfRange f) :
    strconv.ParseUint f 10 32 = (2 ^ 32 - 1, some .ErrRange) := by
  simp only [OutOfRange, decVal, Char.reduceToNat] at h
  obtain ⟨ds, rest, hf, hd, hv⟩ := h
  subst hf
  have hne : ds ++ rest ≠ [] := by
    intro he
    have : ds = [] := (List.append_eq_nil.mp he).1
    subst this
    simp at hv
  simp only [strconv.ParseUint]
  rw [if_neg hne, parseUint_consts]
  exact parseUint_loop_overflow ds rest 0 (by omega) hd hv

/-- A string consists of digits only or has a first non-digit byte. -/
theorem digits_or_split (f : GoString) :
    (∀ c ∈ f, 48 ≤ c ∧ c ≤ 57) ∨
    ∃ ds c rest, f = ds ++ c :: rest ∧ (∀ d ∈ ds, 48 ≤ d ∧ d ≤ 57) ∧ ¬ (48 ≤ c ∧ c ≤ 57) := by
  induction f with
  | nil => exact Or.inl (by simp)
  | cons a f ih =>
    by_cases ha : 48 ≤ a ∧ a ≤ 57
    · rcases ih with h | ⟨ds, c, rest, hf, hd, hc⟩
      · left
        intro c hc
        rcases List.mem_cons.mp hc with h1 | h1
        · subst h1; exact ha
        · exact h c h1
      · right
        refine ⟨a :: ds, c, rest, by simp [hf], ?_, hc⟩
        intro d hdm
        rcases List.mem_cons.mp hdm with h1 | h1
        · subst h1; exact ha
        · exact hd d h1
    · exact Or.inr ⟨[], a, f, by simp, by simp, ha⟩

/-- A field that is not a decimal numeral below `2^32` has a syntax error or is out of range. -/
theorem notNumeric_or_outOfRange {f : GoString} (h : ¬ (IsNumeral f ∧ decVal f < 2 ^ 32)) :
    NotNumeric f ∨ OutOfRange f := by
  simp only [IsNumeral, NotNumeric, OutOfRange, Char.reduceToNat] at h ⊢
  rcases digits_or_split f with hd | ⟨ds, c, rest, hf, hd, hc⟩
  · by_cases he : f = []
    · exact Or.inl (Or.inl he)
    · right
      refine ⟨f, [], by simp, hd, ?_⟩
      by_contra hlt
      exact h ⟨⟨he, hd⟩, by omega⟩
  · by_cases hv : decVal ds < 2 ^ 32
    · exact Or.inl (Or.inr ⟨ds, c, rest, hf, hd, hv, hc⟩)
    · exact Or.inr ⟨ds, c :: rest, hf, hd, by omega⟩

/-! ## Facts about the row loop of `loadData` -/

/-- The record built from a row of six fields. -/
theorem loadData_record_six (f0 f1 f2 f3 f4 f5 : GoString) :
    loadData.record [f0, f1, f2, f3, f4, f5] = .returns
      { LowerIPID := (strconv.ParseUint f0 10 32).1 % 2 ^ 32
        UpperIPIP := (strconv.ParseUint f1 10 32).1 % 2 ^ 32
        CountryCode := f2
        CountryName := f3
        Region := f4
        City := f5 } := by
  simp [loadData.record]

/-- A row of six fields always yields a record. -/
theorem loadData_record_returns {row : List GoString} (h : row.length = 6) :
    ∃ r, loadData.record row = .returns r := by
  match row, h with
  | [f0, f1, f2, f3, f4, f5], _ => exact ⟨_, loadData_record_six f0 f1 f2 f3 f4 f5⟩

/-- The row loop started at position `i` keeps the length of the slice, leaves the positions
below `i` alone and stores the record of row `k` at position `i + k`. -/
theorem loadData_loop_spec : ∀ (rows : List (List GoString)) (i : Nat) (db : List IPRecord),
    (∀ row ∈ rows, row.length = 6) → i + rows.length ≤ db.length →
    ∃ out, loadData.loop rows i db = .returns out ∧ out.length = db.length ∧
      (∀ k, k < i → out[k]? = db[k]?) ∧
      ∀ k row, rows[k]? = some row →
        ∃ r, loadData.record row = .returns r ∧ out[i + k]? = some r := by
  intro rows
  induction rows with
  | nil =>
    intro i db _ _
    exact ⟨db, by simp [loadData.loop], rfl, fun _ _ => rfl, by simp⟩
  | cons row rest ih =>
    intro i db hrows hlen
    obtain ⟨r, hr⟩ := loadData_record_returns (hrows row (by simp))
    have hi : i < db.length := by simp at hlen; omega
    obtain ⟨out, h1, h2, h3, h4⟩ := ih (i + 1) (db.set i r)
      (fun x hx => hrows x (by simp [hx])) (by simp at hlen ⊢; omega)
    refine ⟨out, ?_, by simpa using h2, ?_, ?_⟩
    · simp only [loadData.loop, hr]
      rw [if_pos hi]
      exact h1
    · intro k hk
      rw [h3 k (by omega)]
      simp [List.getElem?_set]
      omega
    · intro k x hx
      cases k with
      | zero =>
        simp at hx
        subst hx
        refine ⟨r, hr, ?_⟩
        rw [Nat.add_zero, h3 i (by omega)]
        simp [List.getElem?_set, hi]
      | succ k =>
        simp at hx
        obtain ⟨r1, hr1, hr2⟩ := h4 k x hx
        refine ⟨r1, hr1, ?_⟩
        have : i + (k + 1) = i + 1 + k := by omega
        rw [this]
        exact hr2

/-- The row loop of `loadData` on rows of six fields: it returns an index with one record per
row, in row order, each built from its own row. -/
theorem loadData_spec (rows : List (List GoString)) (h : ∀ row ∈ rows, row.length = 6) :
    ∃ db, loadData rows = .returns db ∧ db.length = rows.length ∧
      ∀ (i : Nat) (f0 f1 f2 f3 f4 f5 : GoString), rows[i]? = some [f0, f1, f2, f3, f4, f5] →
        db[i]? = some
          ({ LowerIPID := (strconv.ParseUint f0 10 32).1 % 2 ^ 32
             UpperIPIP := (strconv.ParseUint f1 10 32).1 % 2 ^ 32
             CountryCode := f2
             CountryName := f3
             Region := f4
             City := f5 } : IPRecord) := by
  obtain ⟨out, h1, h2, _, h4⟩ := loadData_loop_spec rows 0 (List.replicate rows.length
    { LowerIPID := 0, UpperIPIP := 0, CountryCode := [], CountryName := [], Region := [],
      City := [] }) h (by simp)
  refine ⟨out, h1, by simpa using h2, ?_⟩
  intro i f0 f1 f2 f3 f4 f5 hrow
  obtain ⟨r, hr1, hr2⟩ := h4 i _ hrow
  rw [loadData_record_six] at hr1
  cases hr1
  simpa using hr2


/-! ## The index builder -/

/-- C9: the row loop of `loadData` preserves count and order and does not sort: for rows of six
fields it returns an index with exactly one record per row, record `i` is built from row `i`
(whatever the order of the lower bounds), its CountryCode, CountryName, Region and City are
fields 2, 3, 4, 5 of the row, and when field 0 (field 1) is a decimal numeral below `2^32` the
lower (upper) bound is its numeric value. -/
theorem loadData_preserves_rows (rows : List (List GoString))
    (h : ∀ row ∈ rows, row.length = 6) :
    ∃ db, loadData rows = .returns db ∧ db.length = rows.length ∧
      ∀ (i : Nat) (f0 f1 f2 f3 f4 f5 : GoString), rows[i]? = some [f0, f1, f2, f3, f4, f5] →
        ∃ r, db[i]? = some r ∧ r.CountryCode = f2 ∧ r.CountryName = f3 ∧ r.Region = f4 ∧
          r.City = f5 ∧
          (IsNumeral f0 → decVal f0 < 2 ^ 32 → r.LowerIPID = decVal f0) ∧
          (IsNumeral f1 → decVal f1 < 2 ^ 32 → r.UpperIPIP = decVal f1) := by
  obtain ⟨db, h1, h2, h3⟩ := loadData_spec rows h
  refine ⟨db, h1, h2, ?_⟩
  intro i f0 f1 f2 f3 f4 f5 hrow
  refine ⟨_, h3 i f0 f1 f2 f3 f4 f5 hrow, rfl, rfl, rfl, rfl, ?_, ?_⟩
  · intro hn hv
    show (strconv.ParseUint f0 10 32).1 % 2 ^ 32 = decVal f0
    rw [parseUint_numeral hn hv]
    exact Nat.mod_eq_of_lt hv
  · intro hn hv
    show (strconv.ParseUint f1 10 32).1 % 2 ^ 32 = decVal f1
    rw [parseUint_numeral hn hv]
    exact Nat.mod_eq_of_lt hv

/-- Two rows given in descending order of lower bound are loaded in that same order. -/
theorem loadData_preserves_rows_witness :
    (∀ row ∈ unsortedRows, row.length = 6) ∧
    loadData unsortedRows = .returns
      [ { LowerIPID := 134744072, UpperIPIP := 134744072, CountryCode := str "US",
          CountryName := str "United States", Region := str "New York",
          City := str "New York" },
        { LowerIPID := 16777216, UpperIPIP := 16777471, CountryCode := str "US",
          CountryName := str "United States", Region := str "California",
          City := str "Mountain View" } ] ∧
    ∃ db, loadData unsortedRows = .returns db ∧ db.length = unsortedRows.length ∧
      ∀ (i : Nat) (f0 f1 f2 f3 f4 f5 : GoString),
        unsortedRows[i]? = some [f0, f1, f2, f3, f4, f5] →
        ∃ r, db[i]? = some r ∧ r.CountryCode = f2 ∧ r.CountryName = f3 ∧ r.Region = f4 ∧
          r.City = f5 ∧
          (IsNumeral f0 → decVal f0 < 2 ^ 32 → r.LowerIPID = decVal f0) ∧
          (IsNumeral f1 → decVal f1 < 2 ^ 32 → r.UpperIPIP = decVal f1) :=
  ⟨by decide, by decide, loadData_preserves_rows unsortedRows (by decide)⟩

/-- C10 as stated fails on a numeral of value at least `2^32`: for the bound field `4294967296`
`ParseUint` reports a range error and returns `2^32 - 1`, so the bound of the record is
4294967295, not 0. -/
theorem loadData_out_of_range_counterexample :
    IsNumeral (str "4294967296") ∧ decVal (str "4294967296") ≥ 2 ^ 32 ∧
    strconv.ParseUint (str "4294967296") 10 32 = (4294967295, some .ErrRange) ∧
    loadData outOfRangeRows = .returns
      [ { LowerIPID := 4294967295, UpperIPIP := 4294967295, CountryCode := str "US",
          CountryName := str "United States", Region := str "California",
          City := str "Mountain View" } ] := by
  decide

/-- C10 (amended): the builder never fails a row on a numeric parse error: every row of six
fields yields a record.  A bound field with a syntax error (empty, or with a non-digit byte after
digits of value below `2^32`: non-numeric text, a negative number) gives the bound 0; a bound
field out of range (leading digits of value at least `2^32`, in particular every numeral of value
at least `2^32`) gives the bound 4294967295.  Every field that is not a decimal numeral below
`2^32` is of one of these two kinds and makes `ParseUint` report an error. -/
theorem loadData_parse_errors :
    (∀ rows : List (List GoString), (∀ row ∈ rows, row.length = 6) →
      ∃ db, loadData rows = .returns db ∧ db.length = rows.length ∧
        ∀ (i : Nat) (f0 f1 f2 f3 f4 f5 : GoString), rows[i]? = some [f0, f1, f2, f3, f4, f5] →
          ∃ r, db[i]? = some r ∧
            (NotNumeric f0 → r.LowerIPID = 0) ∧ (OutOfRange f0 → r.LowerIPID = 4294967295) ∧
            (NotNumeric f1 → r.UpperIPIP = 0) ∧ (OutOfRange f1 → r.UpperIPIP = 4294967295)) ∧
    (∀ f : GoString, ¬ (IsNumeral f ∧ decVal f < 2 ^ 32) →
      (strconv.ParseUint f 10 32).2 ≠ none ∧ (NotNumeric f ∨ OutOfRange f)) ∧
    loadData dirtyRows = .returns
      [ { LowerIPID := 0, UpperIPIP := 0, CountryCode := str "US",
          CountryName := str "United States", Region := str "California",
          City := str "Mountain View" },
        { LowerIPID := 0, UpperIPIP := 4294967295, CountryCode := str "DE",
          CountryName := str "Germany", Region := str "Berlin", City := str "Berlin" } ] := by
  refine ⟨?_, ?_, by decide⟩
  · intro rows h
    obtain ⟨db, h1, h2, h3⟩ := loadData_spec rows h
    refine ⟨db, h1, h2, ?_⟩
    intro i f0 f1 f2 f3 f4 f5 hrow
    refine ⟨_, h3 i f0 f1 f2 f3 f4 f5 hrow, ?_, ?_, ?_, ?_⟩
    · intro hb
      show (strconv.ParseUint f0 10 32).1 % 2 ^ 32 = 0
      rw [parseUint_notNumeric hb]
      rfl
    · intro hb
      show (strconv.ParseUint f0 10 32).1 % 2 ^ 32 = 4294967295
      rw [parseUint_outOfRange hb]
      rfl
    · intro hb
      show (strconv.ParseUint f1 10 32).1 % 2 ^ 32 = 0
      rw [parseUint_notNumeric hb]
      rfl
    · intro hb
      show (strconv.ParseUint f1 10 32).1 % 2 ^ 32 = 4294967295
      rw [parseUint_outOfRange hb]
      rfl
  · intro f hf
    have hcases := notNumeric_or_outOfRange hf
    refine ⟨?_, hcases⟩
    rcases hcases with hb | hb
    · rw [parseUint_notNumeric hb]
      simp
    · rw [parseUint_outOfRange hb]
      simp

/-- The dirty rows: every row has six fields, the first lower bound `abc` has a syntax error and
the second upper bound `99999999999x` is out of range; both rows are loaded. -/
theorem loadData_parse_errors_witness :
    (∀ row ∈ dirtyRows, row.length = 6) ∧
    ∃ db, loadData dirtyRows = .returns db ∧ db.length = dirtyRows.length ∧
      ∀ (i : Nat) (f0 f1 f2 f3 f4 f5 : GoString),
        dirtyRows[i]? = some [f0, f1, f2, f3, f4, f5] →
          ∃ r, db[i]? = some r ∧
            (NotNumeric f0 → r.LowerIPID = 0) ∧ (OutOfRange f0 → r.LowerIPID = 4294967295) ∧
            (NotNumeric f1 → r.UpperIPIP = 0) ∧ (OutOfRange f1 → r.UpperIPIP = 4294967295) :=
  ⟨by decide, loadData_parse_errors.1 dirtyRows (by decide)⟩


/-! ## Refinement of the reference lookup -/

/-- On a sorted index the binary search returns the first position whose lower bound is above
the key. -/
theorem searchIndex_eq_specPos {db : List IPRecord} (hs : SortedByLower db) (key : Nat) :
    searchIndex db key = .returns (specPos db key) := by
  obtain ⟨pos, h1, h2, h3, h4⟩ := searchIndex_spec db key
  have hle : specPos db key ≤ db.length := List.findIdx_le_length _
  have heq : pos = specPos db key := by
    rcases Nat.lt_trichotomy pos (specPos db key) with hlt | heq | hgt
    · exfalso
      obtain ⟨r, hr1, hr2⟩ := h4 (by omega)
      have hn := List.not_of_lt_findIdx hlt
      obtain ⟨hb, hg⟩ := List.getElem?_eq_some.mp hr1
      rw [hg] at hn
      simp at hn
      omega
    · exact heq
    · exfalso
      have hf : specPos db key < db.length := by omega
      have hp := List.findIdx_getElem (w := hf)
      simp only [decide_eq_true_eq] at hp
      obtain ⟨r, hr1, hr2⟩ := h3 (by omega)
      have hget : db[specPos db key]? = some (db[specPos db key]) := List.getElem?_eq_getElem hf
      have := sorted_lower_le hs hget hr1 (by omega)
      simp only [specPos] at hp this
      omega
  rw [h1, heq]

/-- C11: on every index sorted ascending by lower bound (overlapping or inverted ranges allowed)
and for every key, the binary search returns the position of step 1 of the reference algorithm
(the smallest index with `lower > key`, the length if none), the record just before that position
has `lower ≤ key` (so the lower-bound test of the code is always true there), and
`findLocationByIPID` returns exactly the result of the reference three-step algorithm. -/
theorem lookup_refines_spec (db : List IPRecord) (key : Nat) (hs : SortedByLower db) :
    searchIndex db key = .returns (specPos db key) ∧
    (∀ r, 0 < specPos db key → db[specPos db key - 1]? = some r → r.LowerIPID ≤ key) ∧
    findLocationByIPID db key = .returns (specLookup db key) := by
  have hpos := searchIndex_eq_specPos hs key
  obtain ⟨pos, h1, _, h3, _⟩ := searchIndex_spec db key
  rw [hpos] at h1
  cases h1
  refine ⟨hpos, ?_, ?_⟩
  · intro r hp hr
    obtain ⟨c, hc1, hc2⟩ := h3 hp
    rw [hr] at hc1
    cases hc1
    exact hc2
  · rw [find_of_searchIndex hpos]
    simp only [specLookup]
    by_cases hp : specPos db key > 0
    · obtain ⟨c, hc1, hc2⟩ := h3 hp
      rw [if_pos hp, if_neg (by omega), hc1]
      simp only []
      by_cases hu : key ≤ c.UpperIPIP
      · rw [if_pos ⟨hc2, hu⟩, if_pos hu]
        rfl
      · rw [if_neg (fun h => hu h.2), if_neg hu]
    · rw [if_neg hp, if_pos (by omega)]

/-- The refinement on a sorted index with overlapping ranges: key 10 lies in the first range,
but both the code and the reference algorithm look at the second record only and report not
found. -/
theorem lookup_refines_spec_witness :
    SortedByLower overlapDatabase ∧ specPos overlapDatabase 10 = 2 ∧
    specLookup overlapDatabase 10 = none ∧
    searchIndex overlapDatabase 10 = .returns (specPos overlapDatabase 10) ∧
    findLocationByIPID overlapDatabase 10 = .returns (specLookup overlapDatabase 10) :=
  ⟨by decide, by decide, by decide,
    (lookup_refines_spec overlapDatabase 10 (by decide)).1,
    (lookup_refines_spec overlapDatabase 10 (by decide)).2.2⟩


/-! ## Soundness and safety of the lookup on arbitrary indexes -/

/-- C12: on every index, sorted or not, overlapping or not, a non-nil result of
`findLocationByIPID` comes from a record of the index that contains the key and whose
CountryName, CountryCode and City are the Country, CountryCode and City of the result. -/
theorem lookup_sound (db : List IPRecord) (key : Nat) (loc : LocationResponse)
    (h : findLocationByIPID db key = .returns (some loc)) :
    ∃ r ∈ db, r.LowerIPID ≤ key ∧ key ≤ r.UpperIPIP ∧
      r.CountryName = loc.Country ∧ r.CountryCode = loc.CountryCode ∧ r.City = loc.City := by
  obtain ⟨r, hr, hc, hl⟩ := find_some_contains h
  subst hl
  exact ⟨r, hr, hc.1, hc.2, rfl, rfl, rfl⟩

/-- Soundness on an index that is not sorted: key 35 is reported in the third record, which
contains it. -/
theorem lookup_sound_witness :
    ¬ SortedByLower unsortedDatabase ∧
    findLocationByIPID unsortedDatabase 35 = .returns (some
      { Country := str "Cland", CountryCode := str "CC", City := str "Ccity" }) ∧
    ∃ r ∈ unsortedDatabase, r.LowerIPID ≤ 35 ∧ 35 ≤ r.UpperIPIP ∧
      r.CountryName = str "Cland" ∧ r.CountryCode = str "CC" ∧ r.City = str "Ccity" :=
  have hf : findLocationByIPID unsortedDatabase 35 = .returns (some
      { Country := str "Cland", CountryCode := str "CC", City := str "Ccity" }) := by
    simp [findLocationByIPID, searchIndex, sort.Search, sort.Search.loop, lowerAbove,
      unsortedDatabase]
  ⟨by decide, hf, lookup_sound unsortedDatabase 35 _ hf⟩

/-- C13: on every index and key, sorted or not, the binary search returns (it neither panics nor
runs forever) a position between 0 and the number of records, the record at `pos - 1` exists
whenever `pos > 0`, and `findLocationByIPID` returns without a panic; every index the closure
of the search is asked about is in range, since an index out of range would make the search
panic. -/
theorem lookup_total (db : List IPRecord) (key : Nat) :
    (∃ pos, searchIndex db key = .returns pos ∧ pos ≤ db.length ∧
      (0 < pos → ∃ r, db[pos - 1]? = some r)) ∧
    (∀ i j, i ≤ j → j ≤ db.length →
      ∃ pos, sort.Search.loop (lowerAbove db key) i j = .returns pos ∧ i ≤ pos ∧ pos ≤ j) ∧
    (∀ i, lowerAbove db key i = .panics ↔ db.length ≤ i) ∧
    ∃ res, findLocationByIPID db key = .returns res := by
  refine ⟨?_, ?_, ?_, find_returns db key⟩
  · obtain ⟨pos, h1, h2, h3, _⟩ := searchIndex_spec db key
    refine ⟨pos, h1, h2, fun hp => ?_⟩
    obtain ⟨r, hr, _⟩ := h3 hp
    exact ⟨r, hr⟩
  · intro i j hij hj
    obtain ⟨pos, h1, h2, h3, _⟩ := search_loop_spec db key (j - i) i j rfl hij hj
    exact ⟨pos, h1, h2, h3⟩
  · intro i
    simp only [lowerAbove]
    by_cases hi : i < db.length
    · rw [List.getElem?_eq_getElem hi]
      simp
      omega
    · rw [List.getElem?_eq_none (by omega)]
      simp
      omega


/-- The totality statement on the index that is not sorted, for key 35. -/
theorem lookup_total_witness :
    ¬ SortedByLower unsortedDatabase ∧
    (∃ pos, searchIndex unsortedDatabase 35 = .returns pos ∧ pos ≤ unsortedDatabase.length ∧
      (0 < pos → ∃ r, unsortedDatabase[pos - 1]? = some r)) ∧
    ∃ res, findLocationByIPID unsortedDatabase 35 = .returns res :=
  ⟨by decide, (lookup_total unsortedDatabase 35).1, (lookup_total unsortedDatabase 35).2.2.2⟩

/-! ## The address-to-key packing -/

/-- The key expression for bytes is the positional sum. -/
theorem packKey_eq (a b c d : Nat) (ha : a ≤ 255) (hb : b ≤ 255) (hc : c ≤ 255) (hd : d ≤ 255) :
    packKey a b c d = a * 2 ^ 24 + b * 2 ^ 16 + c * 2 ^ 8 + d :=
  pack_eq a b c d ha hb hc hd

/-- The bytes are recovered from the key by shifting and masking. -/
theorem packKey_unpack (a b c d : Nat) (ha : a ≤ 255) (hb : b ≤ 255) (hc : c ≤ 255)
    (hd : d ≤ 255) :
    (packKey a b c d >>> 24) &&& 255 = a ∧ (packKey a b c d >>> 16) &&& 255 = b ∧
    (packKey a b c d >>> 8) &&& 255 = c ∧ packKey a b c d &&& 255 = d := by
  have hm : ∀ x : Nat, x &&& 255 = x % 256 := by
    intro x
    have := Nat.and_pow_two_sub_one_eq_mod x 8
    simpa using this
  rw [packKey_eq a b c d ha hb hc hd]
  simp only [hm, Nat.shiftRight_eq_div_pow]
  refine ⟨?_, ?_, ?_, ?_⟩ <;> omega

/-- An octet numeral has one digit, or two or three digits the first of which is not zero. -/
theorem octet_shape {p : GoString} (h : IsOctet p) :
    (∃ a, p = [a] ∧ 48 ≤ a ∧ a ≤ 57) ∨
    (∃ a b, p = [a, b] ∧ 49 ≤ a ∧ a ≤ 57 ∧ 48 ≤ b ∧ b ≤ 57) ∨
    (∃ a b c, p = [a, b, c] ∧ 49 ≤ a ∧ a ≤ 57 ∧ 48 ≤ b ∧ b ≤ 57 ∧ 48 ≤ c ∧ c ≤ 57) := by
  obtain ⟨hne, hd, hz, hv⟩ := (isOctet_iff p).mp h
  match p, hne with
  | [a], _ =>
    exact Or.inl ⟨a, rfl, hd a (by simp)⟩
  | [a, b], _ =>
    have h1 := hd a (by simp)
    have h2 := hd b (by simp)
    have h3 := hz (by simp)
    simp at h3
    exact Or.inr (Or.inl ⟨a, b, rfl, by omega, h1.2, h2.1, h2.2⟩)
  | [a, b, c], _ =>
    have h1 := hd a (by simp)
    have h2 := hd b (by simp)
    have h3 := hd c (by simp)
    have h4 := hz (by simp)
    simp at h4
    exact Or.inr (Or.inr ⟨a, b, c, rfl, by omega, h1.2, h2.1, h2.2, h3.1, h3.2⟩)
  | a :: b :: c :: d :: rest, _ =>
    exfalso
    have h1 := hd a (by simp)
    have h4 := hz (by simp)
    simp at h4
    have hle := decVal_le_append rest [a, b, c, d]
    simp only [List.cons_append, List.nil_append] at hle
    have hval : decVal [a, b, c, d] ≥ 1000 := by
      simp [decVal]
      omega
    omega

theorem decVal_one (a : Nat) : decVal [a] = a - 48 := by
  simp [decVal]

theorem decVal_two (a b : Nat) : decVal [a, b] = (a - 48) * 10 + (b - 48) := by
  simp [decVal]

theorem decVal_three (a b c : Nat) :
    decVal [a, b, c] = ((a - 48) * 10 + (b - 48)) * 10 + (c - 48) := by
  simp [decVal]

/-- Two octet numerals with the same value are the same string. -/
theorem octet_eq_of_decVal_eq {p q : GoString} (hp : IsOctet p) (hq : IsOctet q)
    (h : decVal p = decVal q) : p = q := by
  rcases octet_shape hp with ⟨a, rfl, ha⟩ | ⟨a, b, rfl, ha⟩ | ⟨a, b, c, rfl, ha⟩
  · rcases octet_shape hq with ⟨x, rfl, hx⟩ | ⟨x, y, rfl, hx⟩ | ⟨x, y, z, rfl, hx⟩
    · rw [decVal_one, decVal_one] at h
      have : a = x := by omega
      rw [this]
    · rw [decVal_one, decVal_two] at h
      omega
    · rw [decVal_one, decVal_three] at h
      omega
  · rcases octet_shape hq with ⟨x, rfl, hx⟩ | ⟨x, y, rfl, hx⟩ | ⟨x, y, z, rfl, hx⟩
    · rw [decVal_two, decVal_one] at h
      omega
    · rw [decVal_two, decVal_two] at h
      have h1 : a = x := by omega
      have h2 : b = y := by omega
      rw [h1, h2]
    · rw [decVal_two, decVal_three] at h
      omega
  · rcases octet_shape hq with ⟨x, rfl, hx⟩ | ⟨x, y, rfl, hx⟩ | ⟨x, y, z, rfl, hx⟩
    · rw [decVal_three, decVal_one] at h
      omega
    · rw [decVal_three, decVal_two] at h
      omega
    · rw [decVal_three, decVal_three] at h
      have h1 : a = x := by omega
      have h2 : b = y := by omega
      have h3 : c = z := by omega
      rw [h1, h2, h3]

/-- C14: the packing used by `ipToID` is injective and invertible on bytes: equal keys of two
byte quadruples force equal bytes, the bytes are recovered from the key `k` as `(k>>24)&255`,
`(k>>16)&255`, `(k>>8)&255`, `k&255`; `ipToID` returns this packing of the four bytes given by
`To4`, and two dotted-decimal IPv4 addresses with the same key are the same address. -/
theorem packKey_injective :
    (∀ a b c d a2 b2 c2 d2 : Nat, a ≤ 255 → b ≤ 255 → c ≤ 255 → d ≤ 255 →
      a2 ≤ 255 → b2 ≤ 255 → c2 ≤ 255 → d2 ≤ 255 →
      packKey a b c d = packKey a2 b2 c2 d2 → a = a2 ∧ b = b2 ∧ c = c2 ∧ d = d2) ∧
    (∀ a b c d : Nat, a ≤ 255 → b ≤ 255 → c ≤ 255 → d ≤ 255 →
      (packKey a b c d >>> 24) &&& 255 = a ∧ (packKey a b c d >>> 16) &&& 255 = b ∧
      (packKey a b c d >>> 8) &&& 255 = c ∧ packKey a b c d &&& 255 = d) ∧
    (∀ (s : GoString) (ip ip4 : List Nat), net.ParseIP s = some ip → net.IP.To4 ip = some ip4 →
      ipToID s =
        (packKey (ip4.getD 0 0) (ip4.getD 1 0) (ip4.getD 2 0) (ip4.getD 3 0), none)) ∧
    (∀ p0 p1 p2 p3 q0 q1 q2 q3 : GoString, IsOctet p0 → IsOctet p1 → IsOctet p2 → IsOctet p3 →
      IsOctet q0 → IsOctet q1 → IsOctet q2 → IsOctet q3 →
      ipToID (dotted p0 p1 p2 p3) = ipToID (dotted q0 q1 q2 q3) →
      p0 = q0 ∧ p1 = q1 ∧ p2 = q2 ∧ p3 = q3) := by
  refine ⟨?_, ?_, ?_, ?_⟩
  · intro a b c d a2 b2 c2 d2 ha hb hc hd ha2 hb2 hc2 hd2 h
    rw [packKey_eq a b c d ha hb hc hd, packKey_eq a2 b2 c2 d2 ha2 hb2 hc2 hd2] at h
    omega
  · intro a b c d ha hb hc hd
    exact packKey_unpack a b c d ha hb hc hd
  · intro s ip ip4 h1 h2
    simp only [ipToID, h1, h2, packKey]
  · intro p0 p1 p2 p3 q0 q1 q2 q3 hp0 hp1 hp2 hp3 hq0 hq1 hq2 hq3 h
    rw [ipToID_of_dotted p0 p1 p2 p3 hp0 hp1 hp2 hp3,
      ipToID_of_dotted q0 q1 q2 q3 hq0 hq1 hq2 hq3] at h
    have hk := (Prod.mk.injEq _ _ _ _ ▸ h).1
    have := hp0.2.2
    have := hp1.2.2
    have := hp2.2.2
    have := hp3.2.2
    have := hq0.2.2
    have := hq1.2.2
    have := hq2.2.2
    have := hq3.2.2
    exact ⟨octet_eq_of_decVal_eq hp0 hq0 (by omega), octet_eq_of_decVal_eq hp1 hq1 (by omega),
      octet_eq_of_decVal_eq hp2 hq2 (by omega), octet_eq_of_decVal_eq hp3 hq3 (by omega)⟩

/-- The bytes of `192.168.1.1` are recovered from its key 3232235777. -/
theorem packKey_injective_witness :
    192 ≤ 255 ∧ 168 ≤ 255 ∧ 1 ≤ 255 ∧ packKey 192 168 1 1 = 3232235777 ∧
    ((packKey 192 168 1 1 >>> 24) &&& 255 = 192 ∧ (packKey 192 168 1 1 >>> 16) &&& 255 = 168 ∧
      (packKey 192 168 1 1 >>> 8) &&& 255 = 1 ∧ packKey 192 168 1 1 &&& 255 = 1) ∧
    (192 = 192 ∧ 168 = 168 ∧ 1 = 1 ∧ 1 = 1) :=
  ⟨by decide, by decide, by decide, by decide,
    packKey_injective.2.1 192 168 1 1 (by decide) (by decide) (by decide) (by decide),
    packKey_injective.1 192 168 1 1 192 168 1 1 (by decide) (by decide) (by decide) (by decide)
      (by decide) (by decide) (by decide) (by decide) rfl⟩

end ArenaTech
